import Mathlib

/-!
Whac-a-Mole: the game model and its controller.

A shallow embedding of `src/script.js`.

* JavaScript numbers that hold integers (`score`, `timer`, `activeMoleCount`,
  `maxMoles`, hole ids) are `Int`; the values stay far inside the range in
  which JavaScript integer arithmetic is exact.
* An object that is mutated in place becomes a value that is passed in and
  returned: a method `m(args)` of `GameModel` is a function from the state
  before the call to the returned value and the state after it.
* `Math.random()` is a parameter of the call: a binary64 number `r` with
  `0 ≤ r < 1` (the type `Draw`), and `Math.random() * emptyHoles.length` is
  the binary64 product, rounded to nearest, ties to even.
* The view (`GameView`) touches only the DOM; the controller's calls to it
  are recorded in a log, in call order.
* `setInterval` / `clearInterval` act on an explicit table of live interval
  handles.
-/

namespace WhacAMole

/-! ## GameModel -/

/-- One entry of `holes`: the object literal `{ id: i, hasMole: false }`. -/
structure Hole where
  id : Int
  hasMole : Bool
  deriving DecidableEq, Repr

/-- The fields of `class GameModel`. -/
structure GameModel where
  holes : List Hole
  score : Int
  timer : Int
  isGameActive : Bool
  maxMoles : Int
  activeMoleCount : Int
  deriving DecidableEq, Repr

/-- A value of `Math.random()`: a binary64 number `r` with `0 ≤ r < 1`,
written `r = mant / 2 ^ exp` with a significand `mant < 2 ^ 53` and
`exp ≤ 1074`. Every double in `[0, 1)` has this form (a normal one in
`[2 ^ (-k), 2 ^ (1 - k))`, `1 ≤ k ≤ 1022`, with `exp = k + 52`, a subnormal
one with `exp = 1074`), and every such quotient is a double. -/
structure Draw where
  mant : Nat
  exp : Nat
  mant_lt : mant < 2 ^ 53
  exp_le : exp ≤ 1074
  lt_one : mant < 2 ^ exp

/-- The value of a draw as a rational number. -/
def Draw.val (r : Draw) : ℚ :=
  (r.mant : ℚ) / 2 ^ r.exp

/-- The draw `r = 0`. -/
def Draw.zero : Draw := ⟨0, 0, by decide, by decide, by decide⟩

/-- The draw `r = 3752999689475413 / 2 ^ 52`, about `0.8333`: its exact
product with 12 lies halfway between two doubles below 10 and 10 itself. -/
def Draw.tie : Draw := ⟨3752999689475413, 52, by norm_num, by norm_num, by norm_num⟩

/-- An entry `{ hole, index }` built by the `map` in `getRandomEmptyHole`. -/
structure Item where
  hole : Hole
  index : Nat
  deriving DecidableEq, Repr

namespace GameModel

/-- The state built by `constructor()`. -/
def constructor : GameModel :=
  { holes := []
    score := 0
    timer := 30
    isGameActive := false
    maxMoles := 3
    activeMoleCount := 0 }

/-- The body of the `for` loop of `initHoles`, run for `i = 0, …, 11`:
`this.holes.push({ id: i, hasMole: false })`. -/
def pushHole (holes : List Hole) (i : Nat) : List Hole :=
  holes ++ [{ id := (i : Int), hasMole := false }]

/-- `initHoles()`: a new array of 12 holes, then `activeMoleCount = 0`. -/
def initHoles (m : GameModel) : GameModel :=
  { m with
    holes := (List.range 12).foldl pushHole []
    activeMoleCount := 0 }

/-- `this.holes.map((hole, index) => ({ hole, index }))`. -/
def indexed (holes : List Hole) : List Item :=
  holes.enum.map (fun p => { hole := p.2, index := p.1 })

/-- `emptyHoles` of `getRandomEmptyHole`: the indexed holes without a mole. -/
def emptyHoles (m : GameModel) : List Item :=
  (indexed m.holes).filter (fun item => !item.hole.hasMole)

/-- The quotient `a / 2 ^ s` rounded to the nearest integer, a tie going to
the even one. -/
def roundNearestEven (a s : Nat) : Nat :=
  if 2 * (a % 2 ^ s) < 2 ^ s then a / 2 ^ s
  else if 2 ^ s < 2 * (a % 2 ^ s) then a / 2 ^ s + 1
  else if (a / 2 ^ s) % 2 = 0 then a / 2 ^ s
  else a / 2 ^ s + 1

/-- The integer `a` rounded to 53 significant bits, the significand of a
binary64 number, to nearest with ties to even: below `2 ^ 53` it is kept;
otherwise, with `2 ^ L ≤ a < 2 ^ (L + 1)`, it is rounded to a multiple of
`2 ^ (L - 52)`. -/
def roundSignificand (a : Nat) : Nat :=
  if a < 2 ^ 53 then a
  else roundNearestEven a (Nat.log2 a - 52) * 2 ^ (Nat.log2 a - 52)

/-- `Math.floor(Math.random() * n)` for the draw `r = mant / 2 ^ exp` and an
array length `n` (an integer below `2 ^ 32`, so a double). The exact product
is `mant * n / 2 ^ exp`; the binary64 product is the nearest double, ties to
even, which is `roundSignificand (mant * n) / 2 ^ exp`: the doubles around
the product are the multiples of `2 ^ (L - 52) / 2 ^ exp`, and a product
that needs rounding is at least `2 ^ 53 / 2 ^ 1074`, in the normal range.
`Math.floor` of this non-negative double is the integer quotient. -/
def randomIndex (r : Draw) (n : Nat) : Nat :=
  roundSignificand (r.mant * n) / 2 ^ r.exp

/-- `getRandomEmptyHole()`: `-1` when no hole is empty, else the index stored
in the drawn entry of `emptyHoles`. Returns the result and the state after the
call. The proof inside shows that the drawn position is below
`emptyHoles.length`, so `emptyHoles[randomIndex]` is an entry. -/
def getRandomEmptyHole (m : GameModel) (r : Draw) : Int × GameModel :=
  if h : (emptyHoles m).length = 0 then (-1, m)
  else
    (((emptyHoles m).get ⟨randomIndex r (emptyHoles m).length, by
        have hn : 0 < (emptyHoles m).length := Nat.pos_of_ne_zero h
        generalize (emptyHoles m).length = n at hn
        have hup : ∀ a s : Nat, 2 * (roundNearestEven a s * 2 ^ s) ≤ 2 * a + 2 ^ s := by
          intro a s
          have hdm := Nat.div_add_mod a (2 ^ s)
          unfold roundNearestEven
          generalize 2 ^ s = P at *
          generalize a / P = d at *
          generalize a % P = rem at *
          split
          · nlinarith
          · split
            · nlinarith
            · split
              · nlinarith
              · nlinarith
        unfold randomIndex
        rw [Nat.div_lt_iff_lt_mul (Nat.two_pow_pos _)]
        have hmn : r.mant * n + n ≤ n * 2 ^ r.exp := by
          have := Nat.mul_le_mul_left n (Nat.succ_le_of_lt r.lt_one)
          rw [Nat.mul_succ] at this
          rw [Nat.mul_comm r.mant n]
          exact this
        unfold roundSignificand
        split
        · omega
        · rename_i hbig
          have ha0 : r.mant * n ≠ 0 := by
            intro h0
            rw [h0] at hbig
            exact hbig (by decide)
          have hL : 53 ≤ (r.mant * n).log2 := (Nat.le_log2 ha0).mpr (by omega)
          have hpow := Nat.log2_self_le ha0
          obtain ⟨k, hk⟩ : ∃ k, (r.mant * n).log2 = k + 53 :=
            ⟨(r.mant * n).log2 - 53, by omega⟩
          have hs : (r.mant * n).log2 - 52 = k + 1 := by omega
          rw [hs]
          rw [hk, Nat.pow_add] at hpow
          have hup1 := hup (r.mant * n) (k + 1)
          rw [Nat.pow_succ] at hup1
          have hlt : r.mant * n < 2 ^ 53 * n := Nat.mul_lt_mul_of_pos_right r.mant_lt hn
          have hQ : 2 ^ k < n := by
            by_contra hc
            have hle : n ≤ 2 ^ k := by omega
            have := Nat.mul_le_mul_right (2 ^ 53) hle
            omega
          rw [Nat.pow_succ]
          omega⟩).index, m)

/-- `addMole(holeId)`. -/
def addMole (m : GameModel) (holeId : Int) : Bool × GameModel :=
  if holeId ≥ 0 ∧ holeId < (m.holes.length : Int) then
    match m.holes[holeId.toNat]? with
    | some hole =>
      if !hole.hasMole then
        (true,
          { m with
            holes := m.holes.set holeId.toNat { hole with hasMole := true }
            activeMoleCount := m.activeMoleCount + 1 })
      else (false, m)
    | none => (false, m)
  else (false, m)

/-- `removeMole(holeId)`. -/
def removeMole (m : GameModel) (holeId : Int) : Bool × GameModel :=
  if holeId ≥ 0 ∧ holeId < (m.holes.length : Int) then
    match m.holes[holeId.toNat]? with
    | some hole =>
      if hole.hasMole then
        (true,
          { m with
            holes := m.holes.set holeId.toNat { hole with hasMole := false }
            activeMoleCount := m.activeMoleCount - 1 })
      else (false, m)
    | none => (false, m)
  else (false, m)

/-- `incrementScore()`. -/
def incrementScore (m : GameModel) : GameModel :=
  { m with score := m.score + 1 }

/-- `resetScore()`. -/
def resetScore (m : GameModel) : GameModel :=
  { m with score := 0 }

/-- `decrementTimer()`: returns `this.timer` after the guarded decrement. -/
def decrementTimer (m : GameModel) : Int × GameModel :=
  let m1 := if m.timer > 0 then { m with timer := m.timer - 1 } else m
  (m1.timer, m1)

/-- `resetTimer()`. -/
def resetTimer (m : GameModel) : GameModel :=
  { m with timer := 30 }

/-- `isGameOver()`. -/
def isGameOver (m : GameModel) : Bool :=
  decide (m.timer ≤ 0)

/-- `setGameActive(active)`. -/
def setGameActive (m : GameModel) (active : Bool) : GameModel :=
  { m with isGameActive := active }

/-- `getActiveMoleCount()`. -/
def getActiveMoleCount (m : GameModel) : Int :=
  m.activeMoleCount

/-- `canAddMole()`. -/
def canAddMole (m : GameModel) : Bool :=
  decide (m.activeMoleCount < m.maxMoles)

/-- The number of holes whose `hasMole` is true. -/
def moleCount (m : GameModel) : Nat :=
  (m.holes.filter (fun h => h.hasMole)).length

/-- The count invariant of a model state. -/
def CountOk (m : GameModel) : Prop :=
  m.activeMoleCount = (m.moleCount : Int)

/-- The states a `GameModel` can be in: the constructed one, and what the
mutators make of a reachable one. -/
inductive Reachable : GameModel → Prop
  | fresh : Reachable GameModel.constructor
  | initHoles (m : GameModel) : Reachable m → Reachable m.initHoles
  | addMole (m : GameModel) (holeId : Int) : Reachable m → Reachable (m.addMole holeId).2
  | removeMole (m : GameModel) (holeId : Int) : Reachable m → Reachable (m.removeMole holeId).2
  | incrementScore (m : GameModel) : Reachable m → Reachable m.incrementScore
  | resetScore (m : GameModel) : Reachable m → Reachable m.resetScore
  | decrementTimer (m : GameModel) : Reachable m → Reachable m.decrementTimer.2
  | resetTimer (m : GameModel) : Reachable m → Reachable m.resetTimer
  | setGameActive (m : GameModel) (active : Bool) :
      Reachable m → Reachable (m.setGameActive active)

/-- A call of `addMole` or `removeMole` with its argument. -/
inductive MoleOp where
  | addMole (holeId : Int)
  | removeMole (holeId : Int)

/-- The model after one such call. -/
def applyMoleOp (m : GameModel) : MoleOp → GameModel
  | MoleOp.addMole holeId => (m.addMole holeId).2
  | MoleOp.removeMole holeId => (m.removeMole holeId).2

/-- The model after a sequence of such calls, first to last. -/
def applyMoleOps (m : GameModel) (ops : List MoleOp) : GameModel :=
  ops.foldl applyMoleOp m

end GameModel

/-! ## GameView, as seen from the controller -/

/-- A call of the controller to a method of `GameView`, with its arguments. -/
inductive ViewCall where
  | renderBoard (holes : List Hole)
  | bindStartClick
  | bindHoleClick
  | updateScore (score : Int)
  | updateTimer (timer : Int)
  | updateHole (holeId : Int) (hasMole : Bool)
  | resetBoard
  | alertGameOver
  deriving DecidableEq, Repr

/-! ## GameController -/

/-- The function given to `setInterval`: `() => this.generateMole()` or
`() => this.updateTimer()`. -/
inductive Callback where
  | generateMole
  | updateTimer
  deriving DecidableEq, Repr

/-- The fields of `class GameController`, and what its methods act on
outside of it: `view` is the list of calls made to the `GameView` so far,
`intervals` the window's table of live intervals (handle and callback) and
`nextHandle` the handle the next `setInterval` returns. A field holding
`null` is `none`. -/
structure GameController where
  model : GameModel
  view : List ViewCall
  moleInterval : Option Nat
  timerInterval : Option Nat
  intervals : List (Nat × Callback)
  nextHandle : Nat
  deriving DecidableEq, Repr

/-- `this.holes[holeId]` for an integer `holeId`: `undefined` (here `none`)
outside `0 ≤ holeId < holes.length`. -/
def holeAt (holes : List Hole) (holeId : Int) : Option Hole :=
  if holeId ≥ 0 then holes[holeId.toNat]? else none

namespace GameController

/-- `setInterval(callback, 1000)`: a new live interval, whose handle is
returned. -/
def setInterval (c : GameController) (callback : Callback) : Nat × GameController :=
  (c.nextHandle,
    { c with
      intervals := c.intervals ++ [(c.nextHandle, callback)]
      nextHandle := c.nextHandle + 1 })

/-- `clearInterval(handle)`: the interval with this handle is live no more;
nothing happens for `null`. -/
def clearInterval (c : GameController) (handle : Option Nat) : GameController :=
  match handle with
  | none => c
  | some h => { c with intervals := c.intervals.filter (fun p => p.1 ≠ h) }

/-- Record a call to the view. -/
def call (c : GameController) (v : ViewCall) : GameController :=
  { c with view := c.view ++ [v] }

/-- `clearIntervals()`. -/
def clearIntervals (c : GameController) : GameController :=
  let c1 := c.clearInterval c.moleInterval
  let c2 := { c1 with moleInterval := none }
  let c3 := c2.clearInterval c2.timerInterval
  { c3 with timerInterval := none }

/-- `stopGame()`. -/
def stopGame (c : GameController) : GameController :=
  let c1 := { c with model := c.model.setGameActive false }
  c1.clearIntervals

/-- `endGame()`. -/
def endGame (c : GameController) : GameController :=
  let c1 := { c with model := c.model.setGameActive false }
  let c2 := c1.clearIntervals
  c2.call ViewCall.alertGameOver

/-- `startGame()`: both handles are assigned to `this.moleInterval`. -/
def startGame (c : GameController) : GameController :=
  let c1 := c.clearIntervals
  let (h1, c2) := c1.setInterval Callback.generateMole
  let c3 := { c2 with moleInterval := some h1 }
  let (h2, c4) := c3.setInterval Callback.updateTimer
  { c4 with moleInterval := some h2 }

/-- `generateMole()`, with the value `r` that `Math.random()` gives if it is
called. -/
def generateMole (c : GameController) (r : Draw) : GameController :=
  if !c.model.isGameActive || !c.model.canAddMole then c
  else
    let (emptyholeId, m1) := c.model.getRandomEmptyHole r
    let c1 := { c with model := m1 }
    if emptyholeId ≠ -1 then
      let c2 := { c1 with model := (c1.model.addMole emptyholeId).2 }
      c2.call (ViewCall.updateHole emptyholeId true)
    else c1

/-- `updateTimer()`. -/
def updateTimer (c : GameController) : GameController :=
  let (timeLeft, m1) := c.model.decrementTimer
  let c1 := { c with model := m1 }
  let c2 := c1.call (ViewCall.updateTimer timeLeft)
  if c2.model.isGameOver then c2.endGame else c2

/-- `handleHoleClick(holeId)` (the `console.log` line is left out). -/
def handleHoleClick (c : GameController) (holeId : Int) : GameController :=
  if !c.model.isGameActive then c
  else
    match holeAt c.model.holes holeId with
    | some hole =>
      if hole.hasMole then
        let c1 := { c with model := (c.model.removeMole holeId).2 }
        let c2 := c1.call (ViewCall.updateHole holeId false)
        let c3 := { c2 with model := c2.model.incrementScore }
        c3.call (ViewCall.updateScore c3.model.score)
      else c
    | none => c

/-- `handleStartClick()`. -/
def handleStartClick (c : GameController) : GameController :=
  let c1 := c.stopGame
  let c2 := { c1 with model := c1.model.resetScore }
  let c3 := { c2 with model := c2.model.resetTimer }
  let c4 := { c3 with model := c3.model.initHoles }
  let c5 := { c4 with model := c4.model.setGameActive true }
  let c6 := c5.call (ViewCall.updateScore c5.model.score)
  let c7 := c6.call (ViewCall.updateTimer c6.model.timer)
  let c8 := c7.call ViewCall.resetBoard
  c8.startGame

/-- `init()`. -/
def init (c : GameController) : GameController :=
  let c1 := { c with model := c.model.initHoles }
  let c2 := c1.call (ViewCall.renderBoard c1.model.holes)
  let c3 := c2.call ViewCall.bindStartClick
  let c4 := c3.call ViewCall.bindHoleClick
  let c5 := c4.call (ViewCall.updateScore c4.model.score)
  c5.call (ViewCall.updateTimer c5.model.timer)

/-- `constructor(model, view)` in a window with no interval yet, whose
first handle is 1. -/
def constructor (model : GameModel) : GameController :=
  init
    { model := model
      view := []
      moleInterval := none
      timerInterval := none
      intervals := []
      nextHandle := 1 }

/-- The last line of the script: `new GameController(new GameModel(), new
GameView())`. -/
def initial : GameController :=
  GameController.constructor GameModel.constructor

/-- What can happen to the controller after `init`: a click on the start
button, a firing of either interval callback, a click on a hole. -/
inductive Event where
  | handleStartClick
  | generateMole (r : Draw)
  | updateTimer
  | handleHoleClick (holeId : Int)

/-- The controller after an event. -/
def step (c : GameController) : Event → GameController
  | Event.handleStartClick => c.handleStartClick
  | Event.generateMole r => c.generateMole r
  | Event.updateTimer => c.updateTimer
  | Event.handleHoleClick holeId => c.handleHoleClick holeId

/-- The controller after a sequence of events, first to last. -/
def run (c : GameController) (events : List Event) : GameController :=
  events.foldl step c

/-- The states reachable from the initial one by a finite sequence of
events. -/
inductive Reachable : GameController → Prop
  | initial : Reachable GameController.initial
  | step (c : GameController) (e : Event) : Reachable c → Reachable (c.step e)

/-- The live intervals whose callback is `callback`. -/
def liveTicks (c : GameController) (callback : Callback) : List Nat :=
  (c.intervals.filter (fun p => p.2 = callback)).map (fun p => p.1)

/-- How many times `view.alertGameOver()` has been called. -/
def alertCount (c : GameController) : Nat :=
  c.view.count ViewCall.alertGameOver

/-- Whether the event is a click on the start button. -/
def Event.isStart : Event → Bool
  | Event.handleStartClick => true
  | _ => false

/-- Whether the event is a firing of the timer tick. -/
def Event.isTimerTick : Event → Bool
  | Event.updateTimer => true
  | _ => false

/-- The number of timer ticks among the events. -/
def timerTicks (events : List Event) : Nat :=
  events.countP Event.isTimerTick

/-- The states reachable from the initial one when an interval callback runs
only while an interval with that callback is live; clicks can come at any
time. -/
inductive Scheduled : GameController → Prop
  | initial : Scheduled GameController.initial
  | handleStartClick (c : GameController) : Scheduled c → Scheduled c.handleStartClick
  | handleHoleClick (c : GameController) (holeId : Int) :
      Scheduled c → Scheduled (c.handleHoleClick holeId)
  | generateMole (c : GameController) (r : Draw) (handle : Nat) :
      Scheduled c → (handle, Callback.generateMole) ∈ c.intervals →
      Scheduled (c.generateMole r)
  | updateTimer (c : GameController) (handle : Nat) :
      Scheduled c → (handle, Callback.updateTimer) ∈ c.intervals →
      Scheduled c.updateTimer

/-- Every live timer tick is the interval whose handle `moleInterval` holds,
and `moleInterval` is `null` while the game is not active. -/
def TimerTickOwned (c : GameController) : Prop :=
  (∀ p ∈ c.intervals, p.2 = Callback.updateTimer → c.moleInterval = some p.1) ∧
  (c.model.isGameActive = false → c.moleInterval = none)

end GameController

/-- The state of a round with `k` moles on a 12-hole board. -/
def SpawnState (c : GameController) (k : Int) : Prop :=
  c.model.holes.length = 12 ∧ c.model.CountOk ∧ c.model.isGameActive = true ∧
    c.model.maxMoles = 3 ∧ c.model.activeMoleCount = k

/-! ## Lemmas on the board -/

theorem length_foldl_pushHole (l : List Nat) (acc : List Hole) :
    (l.foldl GameModel.pushHole acc).length = acc.length + l.length := by
  induction l generalizing acc with
  | nil => simp
  | cons a t ih => simp [List.foldl_cons, ih, GameModel.pushHole]; omega

theorem moles_set_true (l : List Hole) (i : Nat) (h : Hole)
    (hi : l[i]? = some h) (hm : h.hasMole = false) :
    ((l.set i { h with hasMole := true }).filter (fun x => x.hasMole)).length
      = (l.filter (fun x => x.hasMole)).length + 1 := by
  induction l generalizing i with
  | nil => simp at hi
  | cons a t ih =>
    cases i with
    | zero =>
      simp only [List.getElem?_cons_zero, Option.some.injEq] at hi
      subst hi
      simp [List.filter_cons, hm]
    | succ j =>
      simp only [List.getElem?_cons_succ] at hi
      have := ih j hi
      by_cases ha : a.hasMole = true
      · simp [List.filter_cons, ha, this]
      · simp [List.filter_cons, ha, this]

theorem moles_set_false (l : List Hole) (i : Nat) (h : Hole)
    (hi : l[i]? = some h) (hm : h.hasMole = true) :
    ((l.set i { h with hasMole := false }).filter (fun x => x.hasMole)).length + 1
      = (l.filter (fun x => x.hasMole)).length := by
  induction l generalizing i with
  | nil => simp at hi
  | cons a t ih =>
    cases i with
    | zero =>
      simp only [List.getElem?_cons_zero, Option.some.injEq] at hi
      subst hi
      simp [List.filter_cons, hm]
    | succ j =>
      simp only [List.getElem?_cons_succ] at hi
      have := ih j hi
      by_cases ha : a.hasMole = true
      · simp [List.filter_cons, ha]; omega
      · simp [List.filter_cons, ha]; omega

theorem holeAt_of_nonneg (l : List Hole) (holeId : Int) (h : 0 ≤ holeId) :
    holeAt l holeId = l[holeId.toNat]? := by
  simp [holeAt, h]

theorem holeAt_of_neg (l : List Hole) (holeId : Int) (h : holeId < 0) :
    holeAt l holeId = none := by
  have : ¬ (0 ≤ holeId) := by omega
  simp [holeAt, this]

theorem holeAt_eq_some (l : List Hole) (holeId : Int) (hole : Hole) :
    holeAt l holeId = some hole ↔ 0 ≤ holeId ∧ l[holeId.toNat]? = some hole := by
  by_cases h : 0 ≤ holeId
  · simp [holeAt, h]
  · simp [holeAt, h]

/-! ## What `addMole` and `removeMole` compute -/

theorem addMole_of_empty (m : GameModel) (holeId : Int) (hole : Hole)
    (h0 : 0 ≤ holeId) (hi : m.holes[holeId.toNat]? = some hole)
    (hm : hole.hasMole = false) :
    m.addMole holeId =
      (true,
        { m with
          holes := m.holes.set holeId.toNat { hole with hasMole := true }
          activeMoleCount := m.activeMoleCount + 1 }) := by
  have hlt : holeId.toNat < m.holes.length := by
    rcases List.getElem?_eq_some.mp hi with ⟨h, _⟩
    exact h
  have hlt2 : holeId < (m.holes.length : Int) := by omega
  simp [GameModel.addMole, h0, hlt2, hi, hm]

theorem addMole_of_not (m : GameModel) (holeId : Int)
    (h : ¬ (0 ≤ holeId ∧ ∃ hole, m.holes[holeId.toNat]? = some hole ∧ hole.hasMole = false)) :
    m.addMole holeId = (false, m) := by
  unfold GameModel.addMole
  split
  · rename_i hr
    split
    · rename_i hole hi
      split
      · rename_i hm
        exact absurd ⟨hr.1, hole, hi, by simpa using hm⟩ h
      · rfl
    · rfl
  · rfl

theorem removeMole_of_mole (m : GameModel) (holeId : Int) (hole : Hole)
    (h0 : 0 ≤ holeId) (hi : m.holes[holeId.toNat]? = some hole)
    (hm : hole.hasMole = true) :
    m.removeMole holeId =
      (true,
        { m with
          holes := m.holes.set holeId.toNat { hole with hasMole := false }
          activeMoleCount := m.activeMoleCount - 1 }) := by
  have hlt : holeId.toNat < m.holes.length := by
    rcases List.getElem?_eq_some.mp hi with ⟨h, _⟩
    exact h
  have hlt2 : holeId < (m.holes.length : Int) := by omega
  simp [GameModel.removeMole, h0, hlt2, hi, hm]

theorem removeMole_of_not (m : GameModel) (holeId : Int)
    (h : ¬ (0 ≤ holeId ∧ ∃ hole, m.holes[holeId.toNat]? = some hole ∧ hole.hasMole = true)) :
    m.removeMole holeId = (false, m) := by
  unfold GameModel.removeMole
  split
  · rename_i hr
    split
    · rename_i hole hi
      split
      · rename_i hm
        exact absurd ⟨hr.1, hole, hi, hm⟩ h
      · rfl
    · rfl
  · rfl

theorem countOk_addMole (m : GameModel) (holeId : Int) (h : m.CountOk) :
    (m.addMole holeId).2.CountOk := by
  by_cases hc : 0 ≤ holeId ∧ ∃ hole, m.holes[holeId.toNat]? = some hole ∧ hole.hasMole = false
  · obtain ⟨h0, hole, hi, hm⟩ := hc
    rw [addMole_of_empty m holeId hole h0 hi hm]
    unfold GameModel.CountOk GameModel.moleCount at *
    simp only [moles_set_true m.holes holeId.toNat hole hi hm, h]
    push_cast
    rfl
  · rw [addMole_of_not m holeId hc]; exact h

theorem countOk_removeMole (m : GameModel) (holeId : Int) (h : m.CountOk) :
    (m.removeMole holeId).2.CountOk := by
  by_cases hc : 0 ≤ holeId ∧ ∃ hole, m.holes[holeId.toNat]? = some hole ∧ hole.hasMole = true
  · obtain ⟨h0, hole, hi, hm⟩ := hc
    rw [removeMole_of_mole m holeId hole h0 hi hm]
    unfold GameModel.CountOk GameModel.moleCount at *
    have := moles_set_false m.holes holeId.toNat hole hi hm
    simp only [h]
    omega
  · rw [removeMole_of_not m holeId hc]; exact h

theorem countOk_initHoles (m : GameModel) : m.initHoles.CountOk := by
  show (0 : Int) = (((List.range 12).foldl GameModel.pushHole []).filter
    (fun x => x.hasMole)).length
  decide

/-! ## What `getRandomEmptyHole` computes -/

theorem mem_emptyHoles (m : GameModel) (item : Item) :
    item ∈ m.emptyHoles ↔
      m.holes[item.index]? = some item.hole ∧ item.hole.hasMole = false := by
  unfold GameModel.emptyHoles GameModel.indexed
  rw [List.mem_filter, List.mem_map]
  constructor
  · rintro ⟨⟨p, hp, rfl⟩, hm⟩
    exact ⟨List.mem_enum_iff_getElem?.mp hp, by simpa using hm⟩
  · rintro ⟨hi, hm⟩
    refine ⟨⟨(item.index, item.hole), List.mem_enum_iff_getElem?.mpr hi, rfl⟩, by simpa using hm⟩

theorem emptyHoles_length_eq_zero (m : GameModel) :
    m.emptyHoles.length = 0 ↔ ∀ hole ∈ m.holes, hole.hasMole = true := by
  rw [List.length_eq_zero, List.eq_nil_iff_forall_not_mem]
  constructor
  · intro h hole hmem
    obtain ⟨n, hn⟩ := List.mem_iff_getElem?.mp hmem
    by_contra hf
    have hf2 : hole.hasMole = false := by simpa using hf
    exact h { hole := hole, index := n } ((mem_emptyHoles m _).mpr ⟨hn, hf2⟩)
  · intro h item hitem
    obtain ⟨hi, hm⟩ := (mem_emptyHoles m item).mp hitem
    have := h item.hole (List.mem_iff_getElem?.mpr ⟨_, hi⟩)
    rw [hm] at this
    exact Bool.noConfusion this

theorem getRandomEmptyHole_of_full (m : GameModel) (r : Draw)
    (h : m.emptyHoles.length = 0) : m.getRandomEmptyHole r = (-1, m) := by
  unfold GameModel.getRandomEmptyHole
  rw [dif_pos h]

theorem getRandomEmptyHole_of_nonfull (m : GameModel) (r : Draw)
    (h : m.emptyHoles.length ≠ 0) :
    ∃ item, m.emptyHoles[GameModel.randomIndex r m.emptyHoles.length]? = some item ∧
      m.getRandomEmptyHole r = ((item.index : Int), m) := by
  unfold GameModel.getRandomEmptyHole
  rw [dif_neg h]
  refine ⟨_, ?_, rfl⟩
  rw [List.get_eq_getElem, List.getElem?_eq_getElem]

/-! ## The binary64 product in `randomIndex` -/

theorem roundNearestEven_ge (a s : Nat) : a / 2 ^ s ≤ GameModel.roundNearestEven a s := by
  unfold GameModel.roundNearestEven
  split
  · exact le_refl _
  · split
    · omega
    · split <;> omega

theorem roundNearestEven_le (a s : Nat) :
    GameModel.roundNearestEven a s ≤ a / 2 ^ s + 1 := by
  unfold GameModel.roundNearestEven
  split
  · omega
  · split
    · omega
    · split <;> omega

/-- The rounded quotient is within one half of the exact one, on both
sides, and at a tie it is even. -/
theorem roundNearestEven_nearest (a s : Nat) :
    2 * (GameModel.roundNearestEven a s * 2 ^ s) ≤ 2 * a + 2 ^ s ∧
    2 * a ≤ 2 * (GameModel.roundNearestEven a s * 2 ^ s) + 2 ^ s ∧
    (2 * (a % 2 ^ s) = 2 ^ s → GameModel.roundNearestEven a s % 2 = 0) := by
  have hdm := Nat.div_add_mod a (2 ^ s)
  have hmod := Nat.mod_lt a (Nat.two_pow_pos s)
  unfold GameModel.roundNearestEven
  generalize 2 ^ s = P at *
  generalize a / P = d at *
  generalize a % P = rem at *
  split
  · exact ⟨by nlinarith, by nlinarith, fun h => by omega⟩
  · split
    · exact ⟨by nlinarith, by nlinarith, fun h => by omega⟩
    · split
      · rename_i heven
        exact ⟨by nlinarith, by nlinarith, fun _ => heven⟩
      · exact ⟨by nlinarith, by nlinarith, fun _ => by omega⟩

theorem roundSignificand_of_log (a L : Nat) (h1 : 2 ^ L ≤ a) (h2 : a < 2 ^ (L + 1))
    (h53 : 2 ^ 53 ≤ a) :
    GameModel.roundSignificand a =
      GameModel.roundNearestEven a (L - 52) * 2 ^ (L - 52) := by
  have ha0 : a ≠ 0 := by
    intro h0
    rw [h0] at h53
    exact absurd h53 (by decide)
  have hlog : a.log2 = L := by
    have e1 : L ≤ a.log2 := (Nat.le_log2 ha0).mpr h1
    have e2 : a.log2 < L + 1 := (Nat.log2_lt ha0).mpr h2
    omega
  unfold GameModel.roundSignificand
  rw [if_neg (by omega), hlog]

theorem randomIndex_of_tie (r : Draw) (hm : r.mant = 3752999689475413) (he : r.exp = 52) :
    GameModel.randomIndex r 12 = 10 ∧ r.mant * 12 / 2 ^ r.exp = 9 := by
  unfold GameModel.randomIndex
  rw [hm, he]
  refine ⟨?_, by norm_num⟩
  rw [roundSignificand_of_log (3752999689475413 * 12) 55 (by norm_num) (by norm_num)
    (by norm_num)]
  unfold GameModel.roundNearestEven
  norm_num

/-- A product that rounds upwards: for the draw `3752999689475413 / 2 ^ 52`
and 12 empty holes the exact product is below 10 and its integer part is 9,
the binary64 product is 10 and so is the index. -/
theorem randomIndex_tie : GameModel.randomIndex Draw.tie 12 = 10 ∧
    Draw.tie.mant * 12 / 2 ^ Draw.tie.exp = 9 :=
  randomIndex_of_tie Draw.tie rfl rfl

/-- Every position below an array length `n < 2 ^ 32` is drawn by some
draw, which can be taken among the multiples of `2 ^ (-52)`: for `j` take
`mant` the least integer with `mant * n ≥ j * 2 ^ 52`. -/
theorem randomIndex_onto (n j : Nat) (hn : n < 2 ^ 32) (hj : j < n) :
    ∃ r : Draw, r.exp = 52 ∧ GameModel.randomIndex r n = j := by
  have hnpos : 0 < n := by omega
  have hm1 : j * 2 ^ 52 ≤ ((j * 2 ^ 52 + (n - 1)) / n) * n := by
    have h := Nat.div_add_mod (j * 2 ^ 52 + (n - 1)) n
    have hmod := Nat.mod_lt (j * 2 ^ 52 + (n - 1)) hnpos
    rw [Nat.mul_comm] at h
    omega
  have hm2 : ((j * 2 ^ 52 + (n - 1)) / n) * n ≤ j * 2 ^ 52 + (n - 1) :=
    Nat.div_mul_le_self _ _
  have hmlt : (j * 2 ^ 52 + (n - 1)) / n < 2 ^ 52 := by
    rw [Nat.div_lt_iff_lt_mul hnpos]
    have h1 : j + 1 ≤ n := hj
    have := Nat.mul_le_mul_right (2 ^ 52) h1
    omega
  refine ⟨⟨(j * 2 ^ 52 + (n - 1)) / n, 52, by omega, by decide, hmlt⟩, rfl, ?_⟩
  unfold GameModel.randomIndex
  simp only
  generalize ((j * 2 ^ 52 + (n - 1)) / n) * n = a at hm1 hm2
  have hlow : j * 2 ^ 52 ≤ GameModel.roundSignificand a ∧
      GameModel.roundSignificand a < (j + 1) * 2 ^ 52 := by
    unfold GameModel.roundSignificand
    split
    · omega
    · rename_i hbig
      have ha0 : a ≠ 0 := by omega
      have ha84 : a < 2 ^ 84 := by omega
      have hL1 : 53 ≤ a.log2 := (Nat.le_log2 ha0).mpr (by omega)
      have hL2 : a.log2 < 84 := (Nat.log2_lt ha0).mpr ha84
      obtain ⟨s, hs⟩ : ∃ s, a.log2 - 52 = s := ⟨_, rfl⟩
      rw [hs]
      have hs2 : s ≤ 31 := by omega
      have hP1 : (2 : Nat) ^ s ≤ 2 ^ 31 := Nat.pow_le_pow_right (by decide) hs2
      have hge := roundNearestEven_ge a s
      have hle := roundNearestEven_le a s
      have hsplit : (2 : Nat) ^ 52 = 2 ^ (52 - s) * 2 ^ s := by
        rw [← Nat.pow_add]
        congr 1
        omega
      constructor
      · have h1 : j * 2 ^ (52 - s) ≤ a / 2 ^ s := by
          rw [Nat.le_div_iff_mul_le (Nat.two_pow_pos _), Nat.mul_assoc, ← hsplit]
          exact hm1
        calc j * 2 ^ 52 = (j * 2 ^ (52 - s)) * 2 ^ s := by rw [Nat.mul_assoc, ← hsplit]
          _ ≤ (a / 2 ^ s) * 2 ^ s := Nat.mul_le_mul_right _ h1
          _ ≤ GameModel.roundNearestEven a s * 2 ^ s := Nat.mul_le_mul_right _ hge
      · have h2 : GameModel.roundNearestEven a s * 2 ^ s ≤ (a / 2 ^ s + 1) * 2 ^ s :=
          Nat.mul_le_mul_right _ hle
        have h3 : (a / 2 ^ s + 1) * 2 ^ s ≤ a + 2 ^ s := by
          rw [Nat.add_mul, Nat.one_mul]
          have := Nat.div_mul_le_self a (2 ^ s)
          omega
        omega
  exact Nat.div_eq_of_lt_le hlow.1 hlow.2

/-- A draw is a number in `[0, 1)`. -/
theorem draw_val_bounds (r : Draw) : 0 ≤ r.val ∧ r.val < 1 := by
  unfold Draw.val
  have hpos : (0 : ℚ) < 2 ^ r.exp := by positivity
  refine ⟨by positivity, ?_⟩
  rw [div_lt_one hpos]
  exact_mod_cast r.lt_one

/-- A product below `2 ^ 53` is a double, and the index is the integer part
of the exact product. -/
theorem randomIndex_of_exact (r : Draw) (n : Nat) (h : r.mant * n < 2 ^ 53) :
    GameModel.randomIndex r n = r.mant * n / 2 ^ r.exp := by
  unfold GameModel.randomIndex GameModel.roundSignificand
  rw [if_pos h]

/-- On a fresh board of 12 holes the draw `3752999689475413 / 2 ^ 52` gives
hole 10. -/
theorem getRandomEmptyHole_tie :
    (GameModel.constructor.initHoles.getRandomEmptyHole Draw.tie).1 = 10 := by
  have hlen : GameModel.constructor.initHoles.emptyHoles.length = 12 := by decide
  have hne : GameModel.constructor.initHoles.emptyHoles.length ≠ 0 := by
    rw [hlen]
    decide
  obtain ⟨item, hitem, heq⟩ :=
    getRandomEmptyHole_of_nonfull GameModel.constructor.initHoles Draw.tie hne
  rw [hlen, randomIndex_tie.1] at hitem
  have h10 : GameModel.constructor.initHoles.emptyHoles[10]? =
      some { hole := { id := 10, hasMole := false }, index := 10 } := by decide
  rw [h10] at hitem
  simp only [Option.some.injEq] at hitem
  rw [heq, ← hitem]
  rfl

theorem emptyHoles_length_le (m : GameModel) : m.emptyHoles.length ≤ m.holes.length := by
  unfold GameModel.emptyHoles GameModel.indexed
  calc (List.filter _ _).length ≤ (List.map _ m.holes.enum).length := List.length_filter_le _ _
    _ = m.holes.length := by simp

/-! ## The model inside the controller -/

theorem clearInterval_model (c : GameController) (h : Option Nat) :
    (c.clearInterval h).model = c.model := by
  cases h <;> rfl

theorem clearInterval_view (c : GameController) (h : Option Nat) :
    (c.clearInterval h).view = c.view := by
  cases h <;> rfl

theorem clearIntervals_model (c : GameController) : c.clearIntervals.model = c.model := by
  simp [GameController.clearIntervals, clearInterval_model]

theorem clearIntervals_view (c : GameController) : c.clearIntervals.view = c.view := by
  simp [GameController.clearIntervals, clearInterval_view]

theorem stopGame_model (c : GameController) :
    c.stopGame.model = c.model.setGameActive false := by
  simp [GameController.stopGame, clearIntervals_model]

theorem startGame_model (c : GameController) : c.startGame.model = c.model := by
  simp [GameController.startGame, GameController.setInterval, clearIntervals_model]

theorem endGame_model (c : GameController) :
    c.endGame.model = c.model.setGameActive false := by
  simp [GameController.endGame, GameController.call, clearIntervals_model]

theorem handleStartClick_model (c : GameController) :
    c.handleStartClick.model =
      { holes := (List.range 12).foldl GameModel.pushHole []
        score := 0
        timer := 30
        isGameActive := true
        maxMoles := c.model.maxMoles
        activeMoleCount := 0 } := by
  simp [GameController.handleStartClick, startGame_model, GameController.call,
    stopGame_model, GameModel.setGameActive, GameModel.initHoles, GameModel.resetTimer,
    GameModel.resetScore]

theorem updateTimer_model (c : GameController) :
    c.updateTimer.model =
      if c.model.decrementTimer.2.isGameOver then
        c.model.decrementTimer.2.setGameActive false
      else c.model.decrementTimer.2 := by
  unfold GameController.updateTimer
  simp only [GameController.call]
  split
  · rw [endGame_model]
  · rfl

theorem generateMole_model (c : GameController) (r : Draw) :
    c.generateMole r = c ∨
    (c.model.isGameActive = true ∧ c.model.canAddMole = true ∧
      (c.generateMole r).model =
        (c.model.addMole (c.model.getRandomEmptyHole r).1).2) := by
  unfold GameController.generateMole
  split
  · exact Or.inl rfl
  · rename_i hg
    simp only [Bool.or_eq_true, Bool.not_eq_true', not_or, Bool.not_eq_false] at hg
    have hsame : (c.model.getRandomEmptyHole r).2 = c.model := by
      by_cases h : c.model.emptyHoles.length = 0
      · rw [getRandomEmptyHole_of_full _ r h]
      · obtain ⟨item, _, heq⟩ := getRandomEmptyHole_of_nonfull _ r h
        rw [heq]
    by_cases hne : (c.model.getRandomEmptyHole r).1 ≠ -1
    · right
      refine ⟨hg.1, hg.2, ?_⟩
      simp only [hne, if_true, GameController.call, hsame, ne_eq, not_false_eq_true]
    · left
      simp only [hne, if_false]
      rw [hsame]

theorem handleHoleClick_model (c : GameController) (holeId : Int) :
    c.handleHoleClick holeId = c ∨
    (c.model.isGameActive = true ∧
      (∃ hole, holeAt c.model.holes holeId = some hole ∧ hole.hasMole = true) ∧
      (c.handleHoleClick holeId).model = (c.model.removeMole holeId).2.incrementScore) := by
  unfold GameController.handleHoleClick
  split
  · exact Or.inl rfl
  · rename_i hg
    split
    · rename_i hole hat
      split
      · rename_i hm
        right
        exact ⟨by simpa using hg, ⟨hole, hat, hm⟩, rfl⟩
      · exact Or.inl rfl
    · exact Or.inl rfl

theorem addMole_count_frame (m : GameModel) (holeId : Int) :
    (m.addMole holeId).2.maxMoles = m.maxMoles ∧
    (m.addMole holeId).2.activeMoleCount ≤ m.activeMoleCount + 1 := by
  have hle : m.activeMoleCount ≤ m.activeMoleCount + 1 := by omega
  unfold GameModel.addMole
  split
  · split
    · split
      · exact ⟨rfl, le_refl _⟩
      · exact ⟨rfl, hle⟩
    · exact ⟨rfl, hle⟩
  · exact ⟨rfl, hle⟩

theorem removeMole_count_frame (m : GameModel) (holeId : Int) :
    (m.removeMole holeId).2.maxMoles = m.maxMoles ∧
    (m.removeMole holeId).2.activeMoleCount ≤ m.activeMoleCount := by
  unfold GameModel.removeMole
  split
  · split
    · split
      · exact ⟨rfl, by show m.activeMoleCount - 1 ≤ m.activeMoleCount; omega⟩
      · exact ⟨rfl, le_refl _⟩
    · exact ⟨rfl, le_refl _⟩
  · exact ⟨rfl, le_refl _⟩

theorem decrementTimer_count_frame (m : GameModel) :
    m.decrementTimer.2.maxMoles = m.maxMoles ∧
    m.decrementTimer.2.activeMoleCount = m.activeMoleCount := by
  unfold GameModel.decrementTimer
  split <;> exact ⟨rfl, rfl⟩

theorem reachable_run (c : GameController) (events : List GameController.Event)
    (h : GameController.Reachable c) : GameController.Reachable (c.run events) := by
  induction events generalizing c with
  | nil => exact h
  | cons e t ih => exact ih (c.step e) (GameController.Reachable.step c e h)

/-! ## What the click handler computes -/

theorem handleHoleClick_of_mole (c : GameController) (holeId : Int) (hole : Hole)
    (hact : c.model.isGameActive = true) (hat : holeAt c.model.holes holeId = some hole)
    (hm : hole.hasMole = true) :
    c.handleHoleClick holeId =
      { c with
        model := (c.model.removeMole holeId).2.incrementScore
        view := c.view ++ [ViewCall.updateHole holeId false] ++
          [ViewCall.updateScore (c.model.removeMole holeId).2.incrementScore.score] } := by
  unfold GameController.handleHoleClick
  simp [hact, hat, hm, GameController.call]

theorem handleHoleClick_of_not (c : GameController) (holeId : Int)
    (h : c.model.isGameActive = false ∨
      ¬ ∃ hole, holeAt c.model.holes holeId = some hole ∧ hole.hasMole = true) :
    c.handleHoleClick holeId = c := by
  rcases handleHoleClick_model c holeId with hsame | ⟨hact, hex, _⟩
  · exact hsame
  · rcases h with h | h
    · rw [hact] at h
      exact Bool.noConfusion h
    · exact absurd hex h

theorem removeMole_model_of_mole (m : GameModel) (holeId : Int) (hole : Hole)
    (hat : holeAt m.holes holeId = some hole) (hm : hole.hasMole = true) :
    (m.removeMole holeId).2 =
      { m with
        holes := m.holes.set holeId.toNat { hole with hasMole := false }
        activeMoleCount := m.activeMoleCount - 1 } := by
  obtain ⟨h0, hi⟩ := (holeAt_eq_some _ _ _).mp hat
  rw [removeMole_of_mole m holeId hole h0 hi hm]

theorem holeAt_set_self (l : List Hole) (holeId : Int) (hole new : Hole)
    (hat : holeAt l holeId = some hole) :
    holeAt (l.set holeId.toNat new) holeId = some new := by
  obtain ⟨h0, hi⟩ := (holeAt_eq_some _ _ _).mp hat
  have hlt : holeId.toNat < l.length := (List.getElem?_eq_some.mp hi).1
  rw [holeAt_of_nonneg _ _ h0]
  simp [List.getElem?_set_self, hlt]

theorem holeAt_set_ne (l : List Hole) (holeId j : Int) (new : Hole)
    (h0 : 0 ≤ holeId) (hj : j ≠ holeId) :
    holeAt (l.set holeId.toNat new) j = holeAt l j := by
  by_cases hj0 : 0 ≤ j
  · rw [holeAt_of_nonneg _ _ hj0, holeAt_of_nonneg _ _ hj0]
    have hne : holeId.toNat ≠ j.toNat := by omega
    simp [List.getElem?_set_ne hne]
  · rw [holeAt_of_neg _ _ (by omega), holeAt_of_neg _ _ (by omega)]

/-! ## What the spawn tick computes -/

theorem generateMole_of_guard (c : GameController) (r : Draw)
    (h : c.model.isGameActive = false ∨ c.model.canAddMole = false) :
    c.generateMole r = c := by
  unfold GameController.generateMole
  rcases h with h | h
  · simp [h]
  · simp [h]

theorem generateMole_of_spawn (c : GameController) (r : Draw)
    (hact : c.model.isGameActive = true) (hcan : c.model.canAddMole = true)
    (hne : c.model.emptyHoles.length ≠ 0) :
    ∃ item : Item, c.model.holes[item.index]? = some item.hole ∧
      item.hole.hasMole = false ∧
      c.generateMole r =
        { c with
          model :=
            { c.model with
              holes := c.model.holes.set item.index { item.hole with hasMole := true }
              activeMoleCount := c.model.activeMoleCount + 1 }
          view := c.view ++ [ViewCall.updateHole (item.index : Int) true] } := by
  obtain ⟨item, hitem, heq⟩ := getRandomEmptyHole_of_nonfull c.model r hne
  obtain ⟨hi, hempty⟩ :=
    (mem_emptyHoles c.model item).mp (List.mem_iff_getElem?.mpr ⟨_, hitem⟩)
  refine ⟨item, hi, hempty, ?_⟩
  have hadd := addMole_of_empty c.model (item.index : Int) item.hole (by simp)
    (by simpa using hi) hempty
  have hne1 : ((item.index : Int) ≠ -1) := by omega
  unfold GameController.generateMole
  simp only [hact, hcan, heq, hadd, GameController.call, Bool.not_true, Bool.or_self,
    Bool.false_eq_true, if_false, hne1, ne_eq, not_false_eq_true, if_true, Int.toNat_ofNat]

theorem emptyHoles_ne_of_count (m : GameModel) (hco : m.CountOk)
    (hlt : m.activeMoleCount < (m.holes.length : Int)) : m.emptyHoles.length ≠ 0 := by
  intro h0
  have hall := (emptyHoles_length_eq_zero m).mp h0
  have hfilter : m.holes.filter (fun x => x.hasMole) = m.holes :=
    List.filter_eq_self.mpr hall
  unfold GameModel.CountOk GameModel.moleCount at hco
  rw [hfilter] at hco
  omega

theorem spawnState_generateMole (c : GameController) (r : Draw) (k : Int)
    (h : SpawnState c k) (hk : k < 3) : SpawnState (c.generateMole r) (k + 1) := by
  obtain ⟨hlen, hco, hact, hmax, hamc⟩ := h
  have hcan : c.model.canAddMole = true := by
    simp [GameModel.canAddMole, hmax, hamc, hk]
  have hne : c.model.emptyHoles.length ≠ 0 :=
    emptyHoles_ne_of_count c.model hco (by rw [hlen, hamc]; omega)
  obtain ⟨item, hi, hempty, heq⟩ := generateMole_of_spawn c r hact hcan hne
  rw [heq]
  refine ⟨by simpa using hlen, ?_, hact, hmax, by show c.model.activeMoleCount + 1 = k + 1; omega⟩
  unfold GameModel.CountOk GameModel.moleCount at *
  show c.model.activeMoleCount + 1 = _
  rw [moles_set_true c.model.holes item.index item.hole hi hempty, hco]
  push_cast
  rfl

theorem spawnState_handleStartClick (c : GameController) (hmax : c.model.maxMoles = 3) :
    SpawnState c.handleStartClick 0 := by
  unfold SpawnState
  rw [handleStartClick_model]
  refine ⟨?_, ?_, rfl, hmax, rfl⟩
  · show ((List.range 12).foldl GameModel.pushHole []).length = 12
    decide
  · show (0 : Int) = (((List.range 12).foldl GameModel.pushHole []).filter
      (fun x => x.hasMole)).length
    decide

/-! ## Timer, active flag and round-over signal along the events -/

theorem addMole_frame (m : GameModel) (holeId : Int) :
    (m.addMole holeId).2.score = m.score ∧ (m.addMole holeId).2.timer = m.timer ∧
    (m.addMole holeId).2.isGameActive = m.isGameActive := by
  unfold GameModel.addMole
  split
  · split
    · split <;> exact ⟨rfl, rfl, rfl⟩
    · exact ⟨rfl, rfl, rfl⟩
  · exact ⟨rfl, rfl, rfl⟩

theorem removeMole_frame (m : GameModel) (holeId : Int) :
    (m.removeMole holeId).2.score = m.score ∧ (m.removeMole holeId).2.timer = m.timer ∧
    (m.removeMole holeId).2.isGameActive = m.isGameActive := by
  unfold GameModel.removeMole
  split
  · split
    · split <;> exact ⟨rfl, rfl, rfl⟩
    · exact ⟨rfl, rfl, rfl⟩
  · exact ⟨rfl, rfl, rfl⟩

theorem alertCount_of_view (c d : GameController) (l : List ViewCall)
    (h : d.view = c.view ++ l) :
    d.alertCount = c.alertCount + l.count ViewCall.alertGameOver := by
  unfold GameController.alertCount
  rw [h, List.count_append]

theorem generateMole_view (c : GameController) (r : Draw) :
    (c.generateMole r).view = c.view ∨
    ∃ i : Int, (c.generateMole r).view = c.view ++ [ViewCall.updateHole i true] := by
  unfold GameController.generateMole
  split
  · exact Or.inl rfl
  · simp only [GameController.call]
    split
    · exact Or.inr ⟨_, rfl⟩
    · exact Or.inl rfl

theorem generateMole_alertCount (c : GameController) (r : Draw) :
    (c.generateMole r).alertCount = c.alertCount := by
  rcases generateMole_view c r with h | ⟨i, h⟩
  · unfold GameController.alertCount
    rw [h]
  · rw [alertCount_of_view c _ _ h]
    simp

theorem generateMole_frame (c : GameController) (r : Draw) :
    (c.generateMole r).model.score = c.model.score ∧
    (c.generateMole r).model.timer = c.model.timer ∧
    (c.generateMole r).model.isGameActive = c.model.isGameActive := by
  rcases generateMole_model c r with hsame | ⟨_, _, hmodel⟩
  · rw [hsame]
    exact ⟨rfl, rfl, rfl⟩
  · rw [hmodel]
    exact addMole_frame _ _

theorem handleHoleClick_alertCount (c : GameController) (holeId : Int) :
    (c.handleHoleClick holeId).alertCount = c.alertCount := by
  unfold GameController.handleHoleClick
  split
  · rfl
  · split
    · split
      · simp [GameController.alertCount, GameController.call, List.count_append]
      · rfl
    · rfl

theorem handleHoleClick_frame (c : GameController) (holeId : Int) :
    ((c.handleHoleClick holeId).model.score = c.model.score ∨
      (c.handleHoleClick holeId).model.score = c.model.score + 1) ∧
    (c.handleHoleClick holeId).model.timer = c.model.timer ∧
    (c.handleHoleClick holeId).model.isGameActive = c.model.isGameActive := by
  rcases handleHoleClick_model c holeId with hsame | ⟨_, _, hmodel⟩
  · rw [hsame]
    exact ⟨Or.inl rfl, rfl, rfl⟩
  · rw [hmodel]
    obtain ⟨f1, f2, f3⟩ := removeMole_frame c.model holeId
    refine ⟨Or.inr ?_, f2, f3⟩
    show (c.model.removeMole holeId).2.score + 1 = c.model.score + 1
    rw [f1]

theorem updateTimer_alertCount (c : GameController) :
    c.updateTimer.alertCount =
      c.alertCount + (if c.model.decrementTimer.2.isGameOver then 1 else 0) := by
  unfold GameController.updateTimer
  simp only [GameController.call]
  split
  · rename_i h
    have h2 : c.model.decrementTimer.2.isGameOver = true := h
    simp [GameController.endGame, GameController.alertCount, clearIntervals_view,
      GameController.call, List.count_append, h2]
  · rename_i h
    have h2 : ¬ c.model.decrementTimer.2.isGameOver = true := h
    simp [GameController.alertCount, List.count_append, h2]

theorem updateTimer_frame (c : GameController) :
    c.updateTimer.model.score = c.model.score ∧
    c.updateTimer.model.timer = (if c.model.timer > 0 then c.model.timer - 1 else c.model.timer) ∧
    c.updateTimer.model.isGameActive =
      (if c.updateTimer.model.timer ≤ 0 then false else c.model.isGameActive) := by
  rw [updateTimer_model]
  unfold GameModel.decrementTimer GameModel.isGameOver GameModel.setGameActive
  by_cases h : c.model.timer > 0
  · by_cases h1 : c.model.timer - 1 ≤ 0
    · simp [h, h1]
    · simp [h, h1]
  · have h1 : c.model.timer ≤ 0 := by omega
    simp [h, h1]

theorem run_append_singleton (c : GameController) (events : List GameController.Event)
    (e : GameController.Event) : c.run (events ++ [e]) = (c.run events).step e := by
  simp [GameController.run, List.foldl_append]

theorem timerTicks_append_singleton (events : List GameController.Event)
    (e : GameController.Event) :
    GameController.timerTicks (events ++ [e]) =
      GameController.timerTicks events + (if e.isTimerTick = true then 1 else 0) := by
  unfold GameController.timerTicks
  rw [List.countP_append]
  by_cases h : e.isTimerTick = true
  · simp [h]
  · simp [h]

theorem decrementTimer_isGameOver (m : GameModel) :
    m.decrementTimer.2.isGameOver = decide (m.timer ≤ 1) := by
  unfold GameModel.decrementTimer GameModel.isGameOver
  by_cases h : m.timer > 0
  · simp only [h, if_true]
    by_cases h1 : m.timer ≤ 1
    · have : m.timer - 1 ≤ 0 := by omega
      simp [h1, this]
    · have : ¬ m.timer - 1 ≤ 0 := by omega
      simp [h1, this]
  · have h0 : m.timer ≤ 0 := by omega
    have h1 : m.timer ≤ 1 := by omega
    simp [h, h0, h1]

theorem round_invariant (c : GameController) (events : List GameController.Event)
    (hns : events.any GameController.Event.isStart = false)
    (hk : GameController.timerTicks events ≤ 30) :
    (c.handleStartClick.run events).model.timer
      = 30 - (GameController.timerTicks events : Int) ∧
    (c.handleStartClick.run events).model.isGameActive
      = decide (GameController.timerTicks events < 30) ∧
    (c.handleStartClick.run events).alertCount
      = c.handleStartClick.alertCount +
        (if GameController.timerTicks events = 30 then 1 else 0) := by
  induction events using List.reverseRecOn with
  | nil =>
    show c.handleStartClick.model.timer = 30 - ((0 : Nat) : Int) ∧
      c.handleStartClick.model.isGameActive = decide ((0 : Nat) < 30) ∧
      c.handleStartClick.alertCount = c.handleStartClick.alertCount + 0
    rw [handleStartClick_model]
    exact ⟨rfl, rfl, rfl⟩
  | append_singleton l e ih =>
    rw [List.any_append, Bool.or_eq_false_iff] at hns
    obtain ⟨hl, he⟩ := hns
    rw [timerTicks_append_singleton] at hk ⊢
    rw [run_append_singleton]
    cases e with
    | handleStartClick =>
      simp [GameController.Event.isStart] at he
    | generateMole r =>
      simp only [GameController.Event.isTimerTick, Bool.false_eq_true, if_false,
        Nat.add_zero] at hk ⊢
      obtain ⟨i1, i2, i3⟩ := ih hl hk
      obtain ⟨_, f2, f3⟩ := generateMole_frame (c.handleStartClick.run l) r
      show ((c.handleStartClick.run l).generateMole r).model.timer = _ ∧
        ((c.handleStartClick.run l).generateMole r).model.isGameActive = _ ∧
        ((c.handleStartClick.run l).generateMole r).alertCount = _
      rw [f2, f3, generateMole_alertCount]
      exact ⟨i1, i2, i3⟩
    | handleHoleClick holeId =>
      simp only [GameController.Event.isTimerTick, Bool.false_eq_true, if_false,
        Nat.add_zero] at hk ⊢
      obtain ⟨i1, i2, i3⟩ := ih hl hk
      obtain ⟨_, f2, f3⟩ := handleHoleClick_frame (c.handleStartClick.run l) holeId
      show ((c.handleStartClick.run l).handleHoleClick holeId).model.timer = _ ∧
        ((c.handleStartClick.run l).handleHoleClick holeId).model.isGameActive = _ ∧
        ((c.handleStartClick.run l).handleHoleClick holeId).alertCount = _
      rw [f2, f3, handleHoleClick_alertCount]
      exact ⟨i1, i2, i3⟩
    | updateTimer =>
      simp only [GameController.Event.isTimerTick, if_true] at hk ⊢
      have hlt : GameController.timerTicks l < 30 := by omega
      obtain ⟨i1, i2, i3⟩ := ih hl (by omega)
      have hne : GameController.timerTicks l ≠ 30 := by omega
      simp only [hlt, decide_True, hne, if_false, Nat.add_zero] at i2 i3
      obtain ⟨_, f2, f3⟩ := updateTimer_frame (c.handleStartClick.run l)
      have hpos : (c.handleStartClick.run l).model.timer > 0 := by omega
      have ht : (c.handleStartClick.run l).updateTimer.model.timer
          = 30 - ((GameController.timerTicks l + 1 : Nat) : Int) := by
        rw [f2, if_pos hpos, i1]
        push_cast
        omega
      show (c.handleStartClick.run l).updateTimer.model.timer = _ ∧
        (c.handleStartClick.run l).updateTimer.model.isGameActive = _ ∧
        (c.handleStartClick.run l).updateTimer.alertCount = _
      refine ⟨ht, ?_, ?_⟩
      · rw [f3, ht, i2]
        by_cases h30 : GameController.timerTicks l + 1 < 30
        · have : ¬ (30 - ((GameController.timerTicks l + 1 : Nat) : Int) ≤ 0) := by
            push_cast; omega
          rw [if_neg this]
          simp [h30]
        · have : (30 - ((GameController.timerTicks l + 1 : Nat) : Int) ≤ 0) := by
            push_cast; omega
          rw [if_pos this]
          simp [h30]
      · rw [updateTimer_alertCount, decrementTimer_isGameOver, i3]
        by_cases h30 : GameController.timerTicks l + 1 = 30
        · have : (c.handleStartClick.run l).model.timer ≤ 1 := by omega
          simp [this, h30]
        · have : ¬ (c.handleStartClick.run l).model.timer ≤ 1 := by omega
          simp [this, h30]

/-! ## The interval table along the events -/

theorem clearIntervals_intervals (c : GameController) :
    c.clearIntervals.moleInterval = none ∧
    ∀ p ∈ c.clearIntervals.intervals, p ∈ c.intervals ∧ c.moleInterval ≠ some p.1 := by
  cases hm : c.moleInterval <;> cases ht : c.timerInterval <;>
    simp [GameController.clearIntervals, GameController.clearInterval, hm, ht] <;>
    intro a b hab <;> intros <;> simp_all <;> omega

theorem handleStartClick_intervals (c : GameController) :
    c.handleStartClick.intervals =
      c.clearIntervals.intervals ++
        [(c.nextHandle, Callback.generateMole), (c.nextHandle + 1, Callback.updateTimer)] ∧
    c.handleStartClick.moleInterval = some (c.nextHandle + 1) := by
  cases hm : c.moleInterval <;> cases ht : c.timerInterval <;>
    simp [GameController.handleStartClick, GameController.stopGame,
      GameController.startGame, GameController.clearIntervals,
      GameController.clearInterval, GameController.setInterval, GameController.call, hm, ht]

theorem handleHoleClick_intervals (c : GameController) (holeId : Int) :
    (c.handleHoleClick holeId).intervals = c.intervals ∧
    (c.handleHoleClick holeId).moleInterval = c.moleInterval := by
  unfold GameController.handleHoleClick
  split
  · exact ⟨rfl, rfl⟩
  · split
    · split
      · exact ⟨rfl, rfl⟩
      · exact ⟨rfl, rfl⟩
    · exact ⟨rfl, rfl⟩

theorem generateMole_intervals (c : GameController) (r : Draw) :
    (c.generateMole r).intervals = c.intervals ∧
    (c.generateMole r).moleInterval = c.moleInterval := by
  unfold GameController.generateMole
  split
  · exact ⟨rfl, rfl⟩
  · simp only [GameController.call]
    split
    · exact ⟨rfl, rfl⟩
    · exact ⟨rfl, rfl⟩

theorem updateTimer_intervals (c : GameController) :
    (c.updateTimer.model.isGameActive = c.model.isGameActive ∧
      c.updateTimer.intervals = c.intervals ∧
      c.updateTimer.moleInterval = c.moleInterval) ∨
    (c.updateTimer.model.isGameActive = false ∧
      c.updateTimer.moleInterval = none ∧
      ∀ p ∈ c.updateTimer.intervals, p ∈ c.intervals ∧ c.moleInterval ≠ some p.1) := by
  unfold GameController.updateTimer
  simp only [GameController.call]
  split
  · right
    refine ⟨?_, ?_, ?_⟩
    · rw [endGame_model]
      rfl
    · exact (clearIntervals_intervals _).1
    · exact (clearIntervals_intervals _).2
  · left
    refine ⟨?_, rfl, rfl⟩
    unfold GameModel.decrementTimer
    split <;> rfl

theorem timerTickOwned_of_scheduled (c : GameController) (h : GameController.Scheduled c) :
    GameController.TimerTickOwned c := by
  induction h with
  | initial =>
    refine ⟨?_, fun _ => rfl⟩
    intro p hp
    have : GameController.initial.intervals = [] := rfl
    rw [this] at hp
    simp at hp
  | handleStartClick c _ ih =>
    obtain ⟨hi, hmi⟩ := handleStartClick_intervals c
    refine ⟨?_, ?_⟩
    · intro p hp hcb
      rw [hi, List.mem_append] at hp
      rw [hmi]
      rcases hp with hp | hp
      · obtain ⟨hmem, hne⟩ := (clearIntervals_intervals c).2 p hp
        exact absurd (ih.1 p hmem hcb) hne
      · simp only [List.mem_cons, List.mem_singleton, List.not_mem_nil, or_false] at hp
        rcases hp with hp | hp
        · rw [hp] at hcb
          simp at hcb
        · rw [hp]
    · intro hact
      rw [handleStartClick_model] at hact
      simp at hact
  | handleHoleClick c holeId _ ih =>
    obtain ⟨hi, hmi⟩ := handleHoleClick_intervals c holeId
    obtain ⟨_, _, f3⟩ := handleHoleClick_frame c holeId
    refine ⟨?_, ?_⟩
    · intro p hp hcb
      rw [hi] at hp
      rw [hmi]
      exact ih.1 p hp hcb
    · intro hact
      rw [f3] at hact
      rw [hmi]
      exact ih.2 hact
  | generateMole c r handle _ _ ih =>
    obtain ⟨hi, hmi⟩ := generateMole_intervals c r
    obtain ⟨_, _, f3⟩ := generateMole_frame c r
    refine ⟨?_, ?_⟩
    · intro p hp hcb
      rw [hi] at hp
      rw [hmi]
      exact ih.1 p hp hcb
    · intro hact
      rw [f3] at hact
      rw [hmi]
      exact ih.2 hact
  | updateTimer c handle _ _ ih =>
    rcases updateTimer_intervals c with ⟨ha, hi, hmi⟩ | ⟨_, hmi, hall⟩
    · refine ⟨?_, ?_⟩
      · intro p hp hcb
        rw [hi] at hp
        rw [hmi]
        exact ih.1 p hp hcb
      · intro hact
        rw [ha] at hact
        rw [hmi]
        exact ih.2 hact
    · refine ⟨?_, fun _ => hmi⟩
      intro p hp hcb
      obtain ⟨hmem, hne⟩ := hall p hp
      exact absurd (ih.1 p hmem hcb) hne

/-! ## Hole ids and the score -/

theorem map_id_set (l : List Hole) (i : Nat) (hole : Hole) (b : Bool)
    (hi : l[i]? = some hole) :
    (l.set i { hole with hasMole := b }).map Hole.id = l.map Hole.id := by
  induction l generalizing i with
  | nil => simp at hi
  | cons a t ih =>
    cases i with
    | zero =>
      simp only [List.getElem?_cons_zero, Option.some.injEq] at hi
      subst hi
      simp
    | succ j =>
      simp only [List.getElem?_cons_succ] at hi
      simp [ih j hi]

theorem addMole_ids (m : GameModel) (holeId : Int) :
    (m.addMole holeId).2.holes.map Hole.id = m.holes.map Hole.id := by
  by_cases hc : 0 ≤ holeId ∧
      ∃ hole, m.holes[holeId.toNat]? = some hole ∧ hole.hasMole = false
  · obtain ⟨h0, hole, hi, hm⟩ := hc
    rw [addMole_of_empty m holeId hole h0 hi hm]
    exact map_id_set _ _ _ _ hi
  · rw [addMole_of_not m holeId hc]

theorem removeMole_ids (m : GameModel) (holeId : Int) :
    (m.removeMole holeId).2.holes.map Hole.id = m.holes.map Hole.id := by
  by_cases hc : 0 ≤ holeId ∧
      ∃ hole, m.holes[holeId.toNat]? = some hole ∧ hole.hasMole = true
  · obtain ⟨h0, hole, hi, hm⟩ := hc
    rw [removeMole_of_mole m holeId hole h0 hi hm]
    exact map_id_set _ _ _ _ hi
  · rw [removeMole_of_not m holeId hc]

theorem applyMoleOps_ids (m : GameModel) (ops : List GameModel.MoleOp) :
    (m.applyMoleOps ops).holes.map Hole.id = m.holes.map Hole.id := by
  induction ops generalizing m with
  | nil => rfl
  | cons op t ih =>
    show ((m.applyMoleOp op).applyMoleOps t).holes.map Hole.id = _
    rw [ih]
    cases op with
    | addMole holeId => exact addMole_ids m holeId
    | removeMole holeId => exact removeMole_ids m holeId

theorem updateTimer_score (c : GameController) :
    c.updateTimer.model.score = c.model.score :=
  (updateTimer_frame c).1

/-! ## The claims -/

/-- C1. In every state reachable from a freshly constructed `GameModel` by a
finite sequence of its mutators (`initHoles`, `addMole`, `removeMole`,
`incrementScore`, `resetScore`, `decrementTimer`, `resetTimer`,
`setGameActive`, with any integer ids), `activeMoleCount` is the number of
holes whose `hasMole` is true. -/
theorem activeMoleCount_eq_moleCount (m : GameModel) (h : GameModel.Reachable m) :
    m.activeMoleCount = ((m.holes.filter (fun x => x.hasMole)).length : Int) := by
  have key : m.CountOk := by
    induction h with
    | fresh => rfl
    | initHoles m _ _ => exact countOk_initHoles m
    | addMole m holeId _ ih => exact countOk_addMole m holeId ih
    | removeMole m holeId _ ih => exact countOk_removeMole m holeId ih
    | incrementScore m _ ih => exact ih
    | resetScore m _ ih => exact ih
    | decrementTimer m _ ih =>
      unfold GameModel.decrementTimer
      split <;> exact ih
    | resetTimer m _ ih => exact ih
    | setGameActive m active _ ih => exact ih
  exact key

/-- C1, at a state: the board after `initHoles` and `addMole(4)`. -/
theorem activeMoleCount_eq_moleCount_witness :
    GameModel.Reachable (GameModel.constructor.initHoles.addMole 4).2 ∧
    (GameModel.constructor.initHoles.addMole 4).2.activeMoleCount =
      (((GameModel.constructor.initHoles.addMole 4).2.holes.filter
        (fun x => x.hasMole)).length : Int) :=
  ⟨GameModel.Reachable.addMole _ 4
      (GameModel.Reachable.initHoles _ GameModel.Reachable.fresh),
    activeMoleCount_eq_moleCount _
      (GameModel.Reachable.addMole _ 4
        (GameModel.Reachable.initHoles _ GameModel.Reachable.fresh))⟩

/-- C3. In every state reachable from a freshly constructed `GameModel` by a
finite sequence of its mutators, `0 ≤ timer ≤ 30`. -/
theorem timer_bounds (m : GameModel) (h : GameModel.Reachable m) :
    0 ≤ m.timer ∧ m.timer ≤ 30 := by
  induction h with
  | fresh => decide
  | initHoles m _ ih => exact ih
  | addMole m holeId _ ih =>
    unfold GameModel.addMole
    split
    · split
      · split
        · exact ih
        · exact ih
      · exact ih
    · exact ih
  | removeMole m holeId _ ih =>
    unfold GameModel.removeMole
    split
    · split
      · split
        · exact ih
        · exact ih
      · exact ih
    · exact ih
  | incrementScore m _ ih => exact ih
  | resetScore m _ ih => exact ih
  | decrementTimer m _ ih =>
    unfold GameModel.decrementTimer
    split
    · show 0 ≤ m.timer - 1 ∧ m.timer - 1 ≤ 30
      omega
    · exact ih
  | resetTimer m _ _ =>
    show (0 : Int) ≤ 30 ∧ (30 : Int) ≤ 30
    decide
  | setGameActive m active _ ih => exact ih

/-- C3, at a state: the model after `resetTimer` and two `decrementTimer`. -/
theorem timer_bounds_witness :
    GameModel.Reachable
      (GameModel.constructor.resetTimer.decrementTimer.2.decrementTimer.2) ∧
    (0 ≤ (GameModel.constructor.resetTimer.decrementTimer.2.decrementTimer.2).timer ∧
      (GameModel.constructor.resetTimer.decrementTimer.2.decrementTimer.2).timer ≤ 30) :=
  ⟨GameModel.Reachable.decrementTimer _ (GameModel.Reachable.decrementTimer _
      (GameModel.Reachable.resetTimer _ GameModel.Reachable.fresh)),
    timer_bounds _
      (GameModel.Reachable.decrementTimer _ (GameModel.Reachable.decrementTimer _
        (GameModel.Reachable.resetTimer _ GameModel.Reachable.fresh)))⟩

/-- C4. `addMole(id)` returns true exactly when `0 ≤ id < holes.length` and
`holes[id].hasMole` is false; when it returns true, `holes[id]` is the same
hole with `hasMole = true`, `activeMoleCount` is one more, and the number of
holes, every other hole, `score`, `timer`, `isGameActive` and `maxMoles` are
as before. On a fresh board of 12 empty holes `addMole(4)` returns true and
gives `holes[4].hasMole = true` and `activeMoleCount = 1`. -/
theorem addMole_spec (m : GameModel) (holeId : Int) :
    ((m.addMole holeId).1 = true ↔
      (0 ≤ holeId ∧ holeId < (m.holes.length : Int) ∧
        ∃ hole, holeAt m.holes holeId = some hole ∧ hole.hasMole = false)) ∧
    ((m.addMole holeId).1 = true →
      (∃ hole, holeAt m.holes holeId = some hole ∧
        holeAt (m.addMole holeId).2.holes holeId = some { hole with hasMole := true }) ∧
      (m.addMole holeId).2.activeMoleCount = m.activeMoleCount + 1 ∧
      (m.addMole holeId).2.holes.length = m.holes.length ∧
      (∀ j : Int, j ≠ holeId →
        holeAt (m.addMole holeId).2.holes j = holeAt m.holes j) ∧
      (m.addMole holeId).2.score = m.score ∧
      (m.addMole holeId).2.timer = m.timer ∧
      (m.addMole holeId).2.isGameActive = m.isGameActive ∧
      (m.addMole holeId).2.maxMoles = m.maxMoles) ∧
    ((GameModel.constructor.initHoles.addMole 4).1 = true ∧
      (holeAt (GameModel.constructor.initHoles.addMole 4).2.holes 4).map Hole.hasMole
        = some true ∧
      (GameModel.constructor.initHoles.addMole 4).2.activeMoleCount = 1) := by
  refine ⟨?_, ?_, by decide⟩
  · by_cases hc : 0 ≤ holeId ∧
        ∃ hole, m.holes[holeId.toNat]? = some hole ∧ hole.hasMole = false
    · obtain ⟨h0, hole, hi, hm⟩ := hc
      have hlt : holeId.toNat < m.holes.length := (List.getElem?_eq_some.mp hi).1
      rw [addMole_of_empty m holeId hole h0 hi hm]
      simp only [true_iff]
      exact ⟨h0, by omega, hole, by rw [holeAt_of_nonneg _ _ h0]; exact hi, hm⟩
    · rw [addMole_of_not m holeId hc]
      simp only [Bool.false_eq_true, false_iff]
      rintro ⟨h0, _, hole, hi, hm⟩
      rw [holeAt_of_nonneg _ _ h0] at hi
      exact hc ⟨h0, hole, hi, hm⟩
  · intro hret
    by_cases hc : 0 ≤ holeId ∧
        ∃ hole, m.holes[holeId.toNat]? = some hole ∧ hole.hasMole = false
    · obtain ⟨h0, hole, hi, hm⟩ := hc
      have hlt : holeId.toNat < m.holes.length := (List.getElem?_eq_some.mp hi).1
      rw [addMole_of_empty m holeId hole h0 hi hm]
      refine ⟨⟨hole, ?_, ?_⟩, rfl, ?_, ?_, rfl, rfl, rfl, rfl⟩
      · rw [holeAt_of_nonneg _ _ h0]; exact hi
      · rw [holeAt_of_nonneg _ _ h0]
        simp [List.getElem?_set_self, hlt]
      · simp
      · intro j hj
        by_cases hj0 : 0 ≤ j
        · rw [holeAt_of_nonneg _ _ hj0, holeAt_of_nonneg _ _ hj0]
          have hne : holeId.toNat ≠ j.toNat := by omega
          simp [List.getElem?_set_ne hne]
        · rw [holeAt_of_neg _ _ (by omega), holeAt_of_neg _ _ (by omega)]
    · rw [addMole_of_not m holeId hc] at hret
      simp at hret

/-- C5. For an id that is out of range (`id < 0` or `id ≥ holes.length`) or
whose hole already has a mole, `addMole(id)` returns false and the state
after the call is the state before it. -/
theorem addMole_rejected (m : GameModel) (holeId : Int)
    (h : holeId < 0 ∨ (m.holes.length : Int) ≤ holeId ∨
      ∃ hole, holeAt m.holes holeId = some hole ∧ hole.hasMole = true) :
    m.addMole holeId = (false, m) := by
  apply addMole_of_not
  rintro ⟨h0, hole, hi, hm⟩
  have hlt : holeId.toNat < m.holes.length := (List.getElem?_eq_some.mp hi).1
  rcases h with h | h | ⟨hole2, hi2, hm2⟩
  · omega
  · omega
  · rw [holeAt_of_nonneg _ _ h0, hi] at hi2
    simp only [Option.some.injEq] at hi2
    subst hi2
    rw [hm] at hm2
    exact Bool.noConfusion hm2

/-- C5, at three calls on a board of 12 holes: `addMole(-1)`, `addMole(12)`,
and `addMole(4)` when hole 4 has a mole. -/
theorem addMole_rejected_witness :
    (GameModel.constructor.initHoles.addMole (-1) = (false, GameModel.constructor.initHoles)) ∧
    (GameModel.constructor.initHoles.addMole 12 = (false, GameModel.constructor.initHoles)) ∧
    ((GameModel.constructor.initHoles.addMole 4).2.addMole 4
      = (false, (GameModel.constructor.initHoles.addMole 4).2)) :=
  ⟨addMole_rejected _ (-1) (Or.inl (by decide)),
    addMole_rejected _ 12 (Or.inr (Or.inl (by decide))),
    addMole_rejected _ 4 (Or.inr (Or.inr ⟨{ id := 4, hasMole := true }, by decide, rfl⟩))⟩

/-- C6. `removeMole(id)` returns true exactly when `0 ≤ id < holes.length`
and `holes[id].hasMole` is true; then `holes[id]` is the same hole with
`hasMole = false`, `activeMoleCount` is one less, and the number of holes,
every other hole, `score`, `timer`, `isGameActive` and `maxMoles` are as
before. On an out-of-range id or an empty hole it returns false and the state
after the call is the state before it. -/
theorem removeMole_spec (m : GameModel) (holeId : Int) :
    ((m.removeMole holeId).1 = true ↔
      (0 ≤ holeId ∧ holeId < (m.holes.length : Int) ∧
        ∃ hole, holeAt m.holes holeId = some hole ∧ hole.hasMole = true)) ∧
    ((m.removeMole holeId).1 = true →
      (∃ hole, holeAt m.holes holeId = some hole ∧
        holeAt (m.removeMole holeId).2.holes holeId = some { hole with hasMole := false }) ∧
      (m.removeMole holeId).2.activeMoleCount = m.activeMoleCount - 1 ∧
      (m.removeMole holeId).2.holes.length = m.holes.length ∧
      (∀ j : Int, j ≠ holeId →
        holeAt (m.removeMole holeId).2.holes j = holeAt m.holes j) ∧
      (m.removeMole holeId).2.score = m.score ∧
      (m.removeMole holeId).2.timer = m.timer ∧
      (m.removeMole holeId).2.isGameActive = m.isGameActive ∧
      (m.removeMole holeId).2.maxMoles = m.maxMoles) ∧
    ((holeId < 0 ∨ (m.holes.length : Int) ≤ holeId ∨
        ∃ hole, holeAt m.holes holeId = some hole ∧ hole.hasMole = false) →
      m.removeMole holeId = (false, m)) := by
  by_cases hc : 0 ≤ holeId ∧
      ∃ hole, m.holes[holeId.toNat]? = some hole ∧ hole.hasMole = true
  · obtain ⟨h0, hole, hi, hm⟩ := hc
    have hlt : holeId.toNat < m.holes.length := (List.getElem?_eq_some.mp hi).1
    have hat : holeAt m.holes holeId = some hole := by
      rw [holeAt_of_nonneg _ _ h0]; exact hi
    rw [removeMole_of_mole m holeId hole h0 hi hm]
    refine ⟨?_, ?_, ?_⟩
    · simp only [true_iff]
      exact ⟨h0, by omega, hole, hat, hm⟩
    · intro _
      refine ⟨⟨hole, hat, ?_⟩, rfl, ?_, ?_, rfl, rfl, rfl, rfl⟩
      · rw [holeAt_of_nonneg _ _ h0]
        simp [List.getElem?_set_self, hlt]
      · simp
      · intro j hj
        by_cases hj0 : 0 ≤ j
        · rw [holeAt_of_nonneg _ _ hj0, holeAt_of_nonneg _ _ hj0]
          have hne : holeId.toNat ≠ j.toNat := by omega
          simp [List.getElem?_set_ne hne]
        · rw [holeAt_of_neg _ _ (by omega), holeAt_of_neg _ _ (by omega)]
    · rintro (h | h | ⟨hole2, hi2, hm2⟩)
      · omega
      · omega
      · rw [hat] at hi2
        simp only [Option.some.injEq] at hi2
        subst hi2
        rw [hm] at hm2
        exact Bool.noConfusion hm2
  · rw [removeMole_of_not m holeId hc]
    refine ⟨?_, ?_, fun _ => rfl⟩
    · simp only [Bool.false_eq_true, false_iff]
      rintro ⟨h0, _, hole, hi, hm⟩
      rw [holeAt_of_nonneg _ _ h0] at hi
      exact hc ⟨h0, hole, hi, hm⟩
    · intro hret
      simp at hret

/-- C7. With the value of `Math.random()` any binary64 number `r` in
`[0, 1)` and the product `r * emptyHoles.length` the binary64 one:
`getRandomEmptyHole` returns `-1` exactly when no hole has
`hasMole = false`; when some hole is empty, for every `r` it returns an
index in range whose hole is empty; on a board of fewer than `2 ^ 32` holes
(the bound of a JavaScript array length) every index of an empty hole is
returned for some `r`, which can be taken among the multiples of
`2 ^ (-52)`; and the state after the call is the state before it. -/
theorem getRandomEmptyHole_spec (m : GameModel) :
    (∀ r : Draw, (m.getRandomEmptyHole r).1 = -1 ↔
      ∀ hole ∈ m.holes, hole.hasMole = true) ∧
    (∀ r : Draw, (∃ hole ∈ m.holes, hole.hasMole = false) →
      0 ≤ (m.getRandomEmptyHole r).1 ∧
      (m.getRandomEmptyHole r).1 < (m.holes.length : Int) ∧
      ∃ hole, holeAt m.holes (m.getRandomEmptyHole r).1 = some hole ∧
        hole.hasMole = false) ∧
    (m.holes.length < 2 ^ 32 →
      ∀ (i : Int) (hole : Hole), holeAt m.holes i = some hole → hole.hasMole = false →
        ∃ r : Draw, r.exp = 52 ∧ (m.getRandomEmptyHole r).1 = i) ∧
    (∀ r : Draw, (m.getRandomEmptyHole r).2 = m) := by
  refine ⟨?_, ?_, ?_, ?_⟩
  · intro r
    rw [← emptyHoles_length_eq_zero]
    constructor
    · intro h
      by_contra hne
      obtain ⟨item, _, heq⟩ := getRandomEmptyHole_of_nonfull m r hne
      rw [heq] at h
      simp only at h
      omega
    · intro h
      rw [getRandomEmptyHole_of_full m r h]
  · rintro r ⟨hole, hmem, hm⟩
    have hne : m.emptyHoles.length ≠ 0 := by
      intro h0
      have := (emptyHoles_length_eq_zero m).mp h0 hole hmem
      rw [hm] at this
      exact Bool.noConfusion this
    obtain ⟨item, hitem, heq⟩ := getRandomEmptyHole_of_nonfull m r hne
    obtain ⟨hi, hempty⟩ := (mem_emptyHoles m item).mp (List.mem_iff_getElem?.mpr ⟨_, hitem⟩)
    have hlt : item.index < m.holes.length := (List.getElem?_eq_some.mp hi).1
    rw [heq]
    refine ⟨by simp, by simpa using hlt, item.hole, ?_, hempty⟩
    rw [holeAt_of_nonneg _ _ (by simp)]
    simpa using hi
  · intro hlen i hole hat hm
    obtain ⟨h0, hi⟩ := (holeAt_eq_some _ _ _).mp hat
    have hmem : ({ hole := hole, index := i.toNat } : Item) ∈ m.emptyHoles :=
      (mem_emptyHoles m _).mpr ⟨hi, hm⟩
    obtain ⟨n, hn⟩ := List.mem_iff_getElem?.mp hmem
    have hlt : n < m.emptyHoles.length := (List.getElem?_eq_some.mp hn).1
    have hne : m.emptyHoles.length ≠ 0 := by omega
    have hlen2 : m.emptyHoles.length < 2 ^ 32 :=
      Nat.lt_of_le_of_lt (emptyHoles_length_le m) hlen
    obtain ⟨r, hexp, hr⟩ := randomIndex_onto m.emptyHoles.length n hlen2 hlt
    refine ⟨r, hexp, ?_⟩
    obtain ⟨item, hitem, heq⟩ := getRandomEmptyHole_of_nonfull m r hne
    rw [hr, hn] at hitem
    simp only [Option.some.injEq] at hitem
    rw [heq, ← hitem]
    simp only
    omega
  · intro r
    by_cases h : m.emptyHoles.length = 0
    · rw [getRandomEmptyHole_of_full m r h]
    · obtain ⟨item, _, heq⟩ := getRandomEmptyHole_of_nonfull m r h
      rw [heq]

/-- C7, on a fresh board of 12 holes: some draw on the grid of `2 ^ (-52)`
gives hole 7, and the draw `3752999689475413 / 2 ^ 52`, whose product with
12 rounds up to 10, gives hole 10, an empty hole in range. -/
theorem getRandomEmptyHole_spec_witness :
    (∃ r : Draw, r.exp = 52 ∧ (GameModel.constructor.initHoles.getRandomEmptyHole r).1 = 7) ∧
    (GameModel.constructor.initHoles.getRandomEmptyHole Draw.tie).1 = 10 ∧
    (GameModel.constructor.initHoles.getRandomEmptyHole Draw.tie).1 <
      (GameModel.constructor.initHoles.holes.length : Int) :=
  ⟨(getRandomEmptyHole_spec GameModel.constructor.initHoles).2.2.1 (by decide) 7
      { id := 7, hasMole := false } (by decide) rfl,
    getRandomEmptyHole_tie,
    ((getRandomEmptyHole_spec GameModel.constructor.initHoles).2.1 Draw.tie
      ⟨{ id := 0, hasMole := false }, by decide, rfl⟩).2.1⟩

/-- C8. `decrementTimer` returns the timer of the state after the call and
changes no field but `timer`; when `timer = t > 0` the new timer is `t - 1`;
when `timer = 0` it stays 0, the state is unchanged, and a second call gives
the same result and state as the first. -/
theorem decrementTimer_spec (m : GameModel) :
    m.decrementTimer.1 = m.decrementTimer.2.timer ∧
    m.decrementTimer.2 = { m with timer := m.decrementTimer.2.timer } ∧
    (0 < m.timer → m.decrementTimer.2.timer = m.timer - 1) ∧
    (m.timer = 0 → m.decrementTimer = (0, m)) ∧
    (m.timer = 0 → m.decrementTimer.2.decrementTimer = m.decrementTimer) := by
  refine ⟨rfl, ?_, ?_, ?_, ?_⟩
  · unfold GameModel.decrementTimer
    split <;> rfl
  · intro h
    simp [GameModel.decrementTimer, h]
  · intro h
    simp [GameModel.decrementTimer, h]
  · intro h
    simp [GameModel.decrementTimer, h]

/-- C2. In every state reachable from the controller's initial state (after
`init`) by a finite sequence of events (`handleStartClick`, `generateMole`
with any draw, `updateTimer`, `handleHoleClick` with any integer id),
`activeMoleCount ≤ maxMoles = 3`. -/
theorem activeMoleCount_le_maxMoles (c : GameController) (h : GameController.Reachable c) :
    c.model.activeMoleCount ≤ c.model.maxMoles ∧ c.model.maxMoles = 3 := by
  induction h with
  | initial => decide
  | step c e _ ih =>
    obtain ⟨ih1, ih2⟩ := ih
    cases e with
    | handleStartClick =>
      show c.handleStartClick.model.activeMoleCount ≤ c.handleStartClick.model.maxMoles ∧
        c.handleStartClick.model.maxMoles = 3
      rw [handleStartClick_model]
      simp only [ih2]
      decide
    | generateMole r =>
      show (c.generateMole r).model.activeMoleCount ≤ (c.generateMole r).model.maxMoles ∧
        (c.generateMole r).model.maxMoles = 3
      rcases generateMole_model c r with hsame | ⟨_, hcan, hmodel⟩
      · rw [hsame]; exact ⟨ih1, ih2⟩
      · rw [hmodel]
        obtain ⟨f1, f2⟩ := addMole_count_frame c.model (c.model.getRandomEmptyHole r).1
        have hlt : c.model.activeMoleCount < c.model.maxMoles := by
          simpa [GameModel.canAddMole] using hcan
        rw [f1]
        exact ⟨by omega, ih2⟩
    | updateTimer =>
      show c.updateTimer.model.activeMoleCount ≤ c.updateTimer.model.maxMoles ∧
        c.updateTimer.model.maxMoles = 3
      rw [updateTimer_model]
      obtain ⟨f1, f2⟩ := decrementTimer_count_frame c.model
      split
      · show c.model.decrementTimer.2.activeMoleCount ≤ c.model.decrementTimer.2.maxMoles ∧
          c.model.decrementTimer.2.maxMoles = 3
        rw [f1, f2]; exact ⟨ih1, ih2⟩
      · rw [f1, f2]; exact ⟨ih1, ih2⟩
    | handleHoleClick holeId =>
      show (c.handleHoleClick holeId).model.activeMoleCount ≤
          (c.handleHoleClick holeId).model.maxMoles ∧
        (c.handleHoleClick holeId).model.maxMoles = 3
      rcases handleHoleClick_model c holeId with hsame | ⟨_, _, hmodel⟩
      · rw [hsame]; exact ⟨ih1, ih2⟩
      · rw [hmodel]
        obtain ⟨f1, f2⟩ := removeMole_count_frame c.model holeId
        show (c.model.removeMole holeId).2.activeMoleCount ≤
            (c.model.removeMole holeId).2.maxMoles ∧
          (c.model.removeMole holeId).2.maxMoles = 3
        rw [f1]
        exact ⟨by omega, ih2⟩

/-- C2, at a state: the controller after a start click, a spawn tick with
draw 0, a timer tick and a click on hole 0. -/
theorem activeMoleCount_le_maxMoles_witness :
    GameController.Reachable
      (GameController.initial.run
        [GameController.Event.handleStartClick, GameController.Event.generateMole Draw.zero,
          GameController.Event.updateTimer, GameController.Event.handleHoleClick 0]) ∧
    ((GameController.initial.run
        [GameController.Event.handleStartClick, GameController.Event.generateMole Draw.zero,
          GameController.Event.updateTimer,
          GameController.Event.handleHoleClick 0]).model.activeMoleCount ≤
      (GameController.initial.run
        [GameController.Event.handleStartClick, GameController.Event.generateMole Draw.zero,
          GameController.Event.updateTimer,
          GameController.Event.handleHoleClick 0]).model.maxMoles ∧
      (GameController.initial.run
        [GameController.Event.handleStartClick, GameController.Event.generateMole Draw.zero,
          GameController.Event.updateTimer,
          GameController.Event.handleHoleClick 0]).model.maxMoles = 3) :=
  ⟨reachable_run _ _ GameController.Reachable.initial,
    activeMoleCount_le_maxMoles _ (reachable_run _ _ GameController.Reachable.initial)⟩

/-- C9. For every controller state, reachable or not, the model after two
`handleStartClick` in a row is the model after one: `score = 0`,
`timer = 30`, 12 holes with ids 0 to 11 all empty, `activeMoleCount = 0`,
`isGameActive = true`. -/
theorem handleStartClick_twice_model (c : GameController) :
    c.handleStartClick.handleStartClick.model = c.handleStartClick.model ∧
    c.handleStartClick.model.score = 0 ∧
    c.handleStartClick.model.timer = 30 ∧
    c.handleStartClick.model.holes.length = 12 ∧
    (∀ hole ∈ c.handleStartClick.model.holes, hole.hasMole = false) ∧
    c.handleStartClick.model.holes.map Hole.id = [0, 1, 2, 3, 4, 5, 6, 7, 8, 9, 10, 11] ∧
    c.handleStartClick.model.activeMoleCount = 0 ∧
    c.handleStartClick.model.isGameActive = true := by
  rw [handleStartClick_model, handleStartClick_model]
  refine ⟨rfl, rfl, rfl, ?_, ?_, ?_, rfl, rfl⟩
  · show ((List.range 12).foldl GameModel.pushHole []).length = 12
    decide
  · show ∀ hole ∈ (List.range 12).foldl GameModel.pushHole [], hole.hasMole = false
    decide
  · show ((List.range 12).foldl GameModel.pushHole []).map Hole.id = _
    decide

/-- C10, on the code: after `handleStartClick` twice from the initial
controller state three intervals are live, two of them spawn ticks: the
spawn tick of the first start (handle 1) was never cancelled, because
`startGame` stores both handles in `moleInterval` and `timerInterval` stays
`null`. -/
theorem handleStartClick_twice_intervals :
    GameController.initial.handleStartClick.intervals
      = [(1, Callback.generateMole), (2, Callback.updateTimer)] ∧
    GameController.initial.handleStartClick.moleInterval = some 2 ∧
    GameController.initial.handleStartClick.timerInterval = none ∧
    GameController.initial.handleStartClick.handleStartClick.intervals
      = [(1, Callback.generateMole), (3, Callback.generateMole), (4, Callback.updateTimer)] ∧
    GameController.initial.handleStartClick.handleStartClick.liveTicks Callback.generateMole
      = [1, 3] ∧
    GameController.initial.handleStartClick.handleStartClick.liveTicks Callback.updateTimer
      = [4] := by
  decide

set_option maxRecDepth 100000 in
/-- C11, on the code: from the initial controller state, after
`handleStartClick` and 30 timer ticks the round has ended by timeout
(`isGameActive = false`) and the spawn tick (handle 1) is still live;
`stopGame` and `endGame` right after a start leave it live as well. Only the
timer tick, whose handle is the one kept in `moleInterval`, is cancelled. -/
theorem idle_with_live_spawn_tick :
    (GameController.initial.run
      (GameController.Event.handleStartClick ::
        List.replicate 30 GameController.Event.updateTimer)).model.isGameActive = false ∧
    (GameController.initial.run
      (GameController.Event.handleStartClick ::
        List.replicate 30 GameController.Event.updateTimer)).intervals
      = [(1, Callback.generateMole)] ∧
    GameController.initial.handleStartClick.endGame.model.isGameActive = false ∧
    GameController.initial.handleStartClick.endGame.intervals
      = [(1, Callback.generateMole)] ∧
    GameController.initial.handleStartClick.stopGame.model.isGameActive = false ∧
    GameController.initial.handleStartClick.stopGame.intervals
      = [(1, Callback.generateMole)] := by
  decide

/-- C12. In a controller state with `isGameActive = true`, for an id in range
whose hole has a mole, `handleHoleClick(id)` makes `score` one more, turns
`holes[id]` into the same hole with `hasMole = false`, makes
`activeMoleCount` one less, and leaves the number of holes, every other
hole, `timer`, `isGameActive` and `maxMoles` as they were; a second
`handleHoleClick(id)` right after it changes nothing at all. -/
theorem handleHoleClick_hit (c : GameController) (holeId : Int) (hole : Hole)
    (hact : c.model.isGameActive = true)
    (hat : holeAt c.model.holes holeId = some hole)
    (hm : hole.hasMole = true) :
    (c.handleHoleClick holeId).model.score = c.model.score + 1 ∧
    holeAt (c.handleHoleClick holeId).model.holes holeId
      = some { hole with hasMole := false } ∧
    (c.handleHoleClick holeId).model.activeMoleCount = c.model.activeMoleCount - 1 ∧
    (c.handleHoleClick holeId).model.holes.length = c.model.holes.length ∧
    (∀ j : Int, j ≠ holeId →
      holeAt (c.handleHoleClick holeId).model.holes j = holeAt c.model.holes j) ∧
    (c.handleHoleClick holeId).model.timer = c.model.timer ∧
    (c.handleHoleClick holeId).model.isGameActive = true ∧
    (c.handleHoleClick holeId).model.maxMoles = c.model.maxMoles ∧
    (c.handleHoleClick holeId).handleHoleClick holeId = c.handleHoleClick holeId := by
  have h0 : 0 ≤ holeId := ((holeAt_eq_some _ _ _).mp hat).1
  have hmodel : (c.handleHoleClick holeId).model =
      { c.model with
        holes := c.model.holes.set holeId.toNat { hole with hasMole := false }
        activeMoleCount := c.model.activeMoleCount - 1
        score := c.model.score + 1 } := by
    rw [handleHoleClick_of_mole c holeId hole hact hat hm]
    show (c.model.removeMole holeId).2.incrementScore = _
    rw [removeMole_model_of_mole c.model holeId hole hat hm]
    rfl
  have hnew : holeAt (c.handleHoleClick holeId).model.holes holeId
      = some { hole with hasMole := false } := by
    rw [hmodel]
    exact holeAt_set_self _ _ hole _ hat
  refine ⟨by rw [hmodel], hnew, by rw [hmodel], by rw [hmodel]; simp, ?_, by rw [hmodel],
    by rw [hmodel]; exact hact, by rw [hmodel], ?_⟩
  · intro j hj
    rw [hmodel]
    exact holeAt_set_ne _ _ _ _ h0 hj
  · apply handleHoleClick_of_not
    right
    rintro ⟨hole2, hat2, hm2⟩
    rw [hnew] at hat2
    simp only [Option.some.injEq] at hat2
    rw [← hat2] at hm2
    exact Bool.noConfusion hm2

/-- C12, at a state: the initial controller with the game set active and a
mole in hole 5. -/
theorem handleHoleClick_hit_witness :
    (({ GameController.initial with
          model := (GameController.initial.model.addMole 5).2.setGameActive true } :
        GameController).handleHoleClick 5).model.score = 0 + 1 ∧
    (({ GameController.initial with
          model := (GameController.initial.model.addMole 5).2.setGameActive true } :
        GameController).handleHoleClick 5).model.activeMoleCount = 1 - 1 ∧
    (({ GameController.initial with
          model := (GameController.initial.model.addMole 5).2.setGameActive true } :
        GameController).handleHoleClick 5).handleHoleClick 5 =
      ({ GameController.initial with
          model := (GameController.initial.model.addMole 5).2.setGameActive true } :
        GameController).handleHoleClick 5 :=
  have h := handleHoleClick_hit
    { GameController.initial with
      model := (GameController.initial.model.addMole 5).2.setGameActive true }
    5 { id := 5, hasMole := true } (by decide) (by decide) rfl
  ⟨h.1, h.2.2.1, h.2.2.2.2.2.2.2.2⟩

/-- C13. If `isGameActive` is false, or the id is outside
`[0, holes.length)`, or `holes[id]` has no mole, then `handleHoleClick(id)`
returns with the controller as it was: the model is unchanged and no call
is made to the view (so no `updateHole`, no `updateScore`). -/
theorem handleHoleClick_ignored (c : GameController) (holeId : Int)
    (h : c.model.isGameActive = false ∨ holeId < 0 ∨
      (c.model.holes.length : Int) ≤ holeId ∨
      ∃ hole, holeAt c.model.holes holeId = some hole ∧ hole.hasMole = false) :
    c.handleHoleClick holeId = c ∧
    (c.handleHoleClick holeId).model = c.model ∧
    (c.handleHoleClick holeId).view = c.view := by
  have key : c.handleHoleClick holeId = c := by
    apply handleHoleClick_of_not
    rcases h with h | h | h | ⟨hole, hat, hm⟩
    · exact Or.inl h
    · right
      rintro ⟨hole2, hat2, _⟩
      have := ((holeAt_eq_some _ _ _).mp hat2).1
      omega
    · right
      rintro ⟨hole2, hat2, _⟩
      obtain ⟨h0, hi⟩ := (holeAt_eq_some _ _ _).mp hat2
      have hlt : holeId.toNat < c.model.holes.length := (List.getElem?_eq_some.mp hi).1
      omega
    · right
      rintro ⟨hole2, hat2, hm2⟩
      rw [hat] at hat2
      simp only [Option.some.injEq] at hat2
      rw [← hat2, hm] at hm2
      exact Bool.noConfusion hm2
  exact ⟨key, by rw [key], by rw [key]⟩

/-- C13, at four clicks: on hole 3 while the game is not active, on ids -1
and 12 of a 12-hole board, and on the empty hole 3 of an active game. -/
theorem handleHoleClick_ignored_witness :
    GameController.initial.handleHoleClick 3 = GameController.initial ∧
    GameController.initial.handleStartClick.handleHoleClick (-1)
      = GameController.initial.handleStartClick ∧
    GameController.initial.handleStartClick.handleHoleClick 12
      = GameController.initial.handleStartClick ∧
    (GameController.initial.handleStartClick.handleHoleClick 3).view
      = GameController.initial.handleStartClick.view :=
  ⟨(handleHoleClick_ignored _ 3 (Or.inl (by decide))).1,
    (handleHoleClick_ignored _ (-1) (Or.inr (Or.inl (by decide)))).1,
    (handleHoleClick_ignored _ 12 (Or.inr (Or.inr (Or.inl (by decide))))).1,
    (handleHoleClick_ignored _ 3
      (Or.inr (Or.inr (Or.inr ⟨{ id := 3, hasMole := false }, by decide, rfl⟩)))).2.2⟩

/-- C14. In a controller state with `maxMoles = 3` (the constructor's value,
which no method assigns): if `isGameActive` is false or
`activeMoleCount ≥ 3`, `generateMole` leaves the controller, and so the
model, as it was; if `isGameActive` is true, `activeMoleCount < 3` and some
hole is empty, then for every draw `generateMole` sets `hasMole` of one
previously empty hole `i`, makes `activeMoleCount` one more, tells the view
`updateHole(i, true)` and changes nothing else. From a fresh round three
spawn ticks give `activeMoleCount = 3`, whatever the draws, and a fourth
changes nothing. -/
theorem generateMole_spec (c : GameController) (hmax : c.model.maxMoles = 3) :
    ((c.model.isGameActive = false ∨ 3 ≤ c.model.activeMoleCount) →
      ∀ r : Draw, c.generateMole r = c) ∧
    ((c.model.isGameActive = true ∧ c.model.activeMoleCount < 3 ∧
        ∃ hole ∈ c.model.holes, hole.hasMole = false) →
      ∀ r : Draw, ∃ (i : Int) (hole : Hole),
        holeAt c.model.holes i = some hole ∧ hole.hasMole = false ∧
        c.generateMole r =
          { c with
            model :=
              { c.model with
                holes := c.model.holes.set i.toNat { hole with hasMole := true }
                activeMoleCount := c.model.activeMoleCount + 1 }
            view := c.view ++ [ViewCall.updateHole i true] }) ∧
    (∀ r1 r2 r3 r4 : Draw,
      (((c.handleStartClick.generateMole r1).generateMole r2).generateMole
        r3).model.activeMoleCount = 3 ∧
      ((((c.handleStartClick.generateMole r1).generateMole r2).generateMole
        r3).generateMole r4) =
        (((c.handleStartClick.generateMole r1).generateMole r2).generateMole r3)) := by
  refine ⟨?_, ?_, ?_⟩
  · intro h r
    apply generateMole_of_guard
    rcases h with h | h
    · exact Or.inl h
    · right
      simp only [GameModel.canAddMole, hmax, decide_eq_false_iff_not, not_lt]
      exact h
  · rintro ⟨hact, hlt, hole, hmem, hempty⟩ r
    have hcan : c.model.canAddMole = true := by
      simp [GameModel.canAddMole, hmax, hlt]
    have hne : c.model.emptyHoles.length ≠ 0 := by
      intro h0
      have := (emptyHoles_length_eq_zero c.model).mp h0 hole hmem
      rw [hempty] at this
      exact Bool.noConfusion this
    obtain ⟨item, hi, hitem, heq⟩ := generateMole_of_spawn c r hact hcan hne
    refine ⟨(item.index : Int), item.hole, ?_, hitem, ?_⟩
    · rw [holeAt_of_nonneg _ _ (by simp)]
      simpa using hi
    · rw [heq]
      simp
  · intro r1 r2 r3 r4
    have h0 := spawnState_handleStartClick c hmax
    have h1 := spawnState_generateMole _ r1 0 h0 (by decide)
    have h2 := spawnState_generateMole _ r2 _ h1 (by decide)
    have h3 := spawnState_generateMole _ r3 _ h2 (by decide)
    obtain ⟨_, _, _, hmax3, hamc3⟩ := h3
    refine ⟨by rw [hamc3]; rfl, ?_⟩
    apply generateMole_of_guard
    right
    simp only [GameModel.canAddMole, hmax3, hamc3, decide_eq_false_iff_not, not_lt]
    decide

/-- C14, at two states: the initial controller, where the game is not
active, and the controller right after a start click, for the draw 0. -/
theorem generateMole_spec_witness :
    (∀ r : Draw, GameController.initial.generateMole r = GameController.initial) ∧
    (((GameController.initial.handleStartClick.generateMole Draw.zero).generateMole
      Draw.zero).generateMole Draw.zero).model.activeMoleCount = 3 :=
  ⟨(generateMole_spec GameController.initial (by decide)).1 (Or.inl (by decide)),
    ((generateMole_spec GameController.initial (by decide)).2.2
      Draw.zero Draw.zero Draw.zero Draw.zero).1⟩

/-- C15. From the state right after `handleStartClick`, along every sequence
of events without a further start click, with spawn ticks and hole clicks
anywhere between the timer ticks: after `k` timer ticks, `k ≤ 30`, the timer
is `30 - k`; while `k < 30`, `isGameActive` is still true and
`alertGameOver` has not been called since the start; when `k = 30`,
`timer = 0`, `isGameOver()` is true, `isGameActive` is false and
`alertGameOver` has been called exactly once since the start. -/
theorem thirty_timer_ticks (c : GameController) (events : List GameController.Event)
    (hns : events.any GameController.Event.isStart = false)
    (hk : GameController.timerTicks events ≤ 30) :
    (c.handleStartClick.run events).model.timer
      = 30 - (GameController.timerTicks events : Int) ∧
    (GameController.timerTicks events < 30 →
      (c.handleStartClick.run events).model.isGameActive = true ∧
      (c.handleStartClick.run events).alertCount = c.handleStartClick.alertCount) ∧
    (GameController.timerTicks events = 30 →
      (c.handleStartClick.run events).model.timer = 0 ∧
      (c.handleStartClick.run events).model.isGameOver = true ∧
      (c.handleStartClick.run events).model.isGameActive = false ∧
      (c.handleStartClick.run events).alertCount = c.handleStartClick.alertCount + 1) := by
  obtain ⟨i1, i2, i3⟩ := round_invariant c events hns hk
  refine ⟨i1, ?_, ?_⟩
  · intro hlt
    have hne : GameController.timerTicks events ≠ 30 := by omega
    simp only [hlt, decide_True, hne, if_false, Nat.add_zero] at i2 i3
    exact ⟨i2, i3⟩
  · intro h30
    have hnlt : ¬ GameController.timerTicks events < 30 := by omega
    have ht : (c.handleStartClick.run events).model.timer = 0 := by
      rw [i1, h30]
      rfl
    refine ⟨ht, ?_, ?_, ?_⟩
    · simp [GameModel.isGameOver, ht]
    · rw [i2]
      simp [hnlt]
    · rw [i3]
      simp [h30]

set_option maxRecDepth 100000 in
/-- C15, at a run from the initial controller: a start click, then a spawn
tick with draw 0, a click on hole 0, 30 timer ticks and a last click on
hole 3. -/
theorem thirty_timer_ticks_witness :
    (GameController.initial.handleStartClick.run
      ([GameController.Event.generateMole Draw.zero, GameController.Event.handleHoleClick 0]
        ++ List.replicate 30 GameController.Event.updateTimer
        ++ [GameController.Event.handleHoleClick 3])).model.timer = 0 ∧
    (GameController.initial.handleStartClick.run
      ([GameController.Event.generateMole Draw.zero, GameController.Event.handleHoleClick 0]
        ++ List.replicate 30 GameController.Event.updateTimer
        ++ [GameController.Event.handleHoleClick 3])).model.isGameActive = false ∧
    (GameController.initial.handleStartClick.run
      ([GameController.Event.generateMole Draw.zero, GameController.Event.handleHoleClick 0]
        ++ List.replicate 30 GameController.Event.updateTimer
        ++ [GameController.Event.handleHoleClick 3])).alertCount
      = GameController.initial.handleStartClick.alertCount + 1 :=
  have h := (thirty_timer_ticks GameController.initial
    ([GameController.Event.generateMole Draw.zero, GameController.Event.handleHoleClick 0]
      ++ List.replicate 30 GameController.Event.updateTimer
      ++ [GameController.Event.handleHoleClick 3]) (by decide) (by decide)).2.2 (by decide)
  ⟨h.1, h.2.2.1, h.2.2.2⟩

set_option maxRecDepth 100000 in
/-- C16 as stated fails: `updateTimer` has no `isGameActive` guard. In the
initial controller state the game is not active and `updateTimer` takes the
timer from 30 to 29; in the idle state after a round that ended by timeout
(`timer = 0`) one more `updateTimer` calls `alertGameOver` a second time. -/
theorem updateTimer_idle_counterexample :
    GameController.initial.model.isGameActive = false ∧
    GameController.initial.model.timer = 30 ∧
    GameController.initial.updateTimer.model.timer = 29 ∧
    (GameController.initial.run
      (GameController.Event.handleStartClick ::
        List.replicate 30 GameController.Event.updateTimer)).model.isGameActive = false ∧
    (GameController.initial.run
      (GameController.Event.handleStartClick ::
        List.replicate 30 GameController.Event.updateTimer)).alertCount = 1 ∧
    (GameController.initial.run
      (GameController.Event.handleStartClick ::
        List.replicate 30 GameController.Event.updateTimer)).updateTimer.alertCount = 2 := by
  decide

/-- C16, amended. In a controller state with `isGameActive = false`,
`updateTimer` leaves `holes`, `score`, `isGameActive`, `maxMoles` and
`activeMoleCount` as they were, but it still takes one off a positive timer
and calls `alertGameOver` when the timer before the call is at most 1. The
timer tick is kept from running while the game is not active by
cancellation: in every state reached when interval callbacks run only while
their interval is live, `isGameActive = false` means no timer tick is
live. -/
theorem updateTimer_idle (c : GameController) (h : c.model.isGameActive = false) :
    c.updateTimer.model =
      { c.model with
        timer := if c.model.timer > 0 then c.model.timer - 1 else c.model.timer } ∧
    c.updateTimer.alertCount = c.alertCount + (if c.model.timer ≤ 1 then 1 else 0) ∧
    (GameController.Scheduled c → c.liveTicks Callback.updateTimer = []) := by
  refine ⟨?_, ?_, ?_⟩
  · rw [updateTimer_model]
    unfold GameModel.decrementTimer GameModel.isGameOver GameModel.setGameActive
    by_cases ht : c.model.timer > 0
    · simp only [ht, if_true]
      split
      · show _ = ({ c.model with timer := c.model.timer - 1 } : GameModel)
        rw [← h]
      · rfl
    · simp only [ht, if_false]
      split
      · show ({ c.model with isGameActive := false } : GameModel) = c.model
        rw [← h]
      · rfl
  · rw [updateTimer_alertCount, decrementTimer_isGameOver]
    by_cases h1 : c.model.timer ≤ 1
    · simp [h1]
    · simp [h1]
  · intro hs
    obtain ⟨hown, hnone⟩ := timerTickOwned_of_scheduled c hs
    unfold GameController.liveTicks
    rw [List.map_eq_nil_iff, List.filter_eq_nil_iff]
    intro p hp hcb
    have hcb2 : p.2 = Callback.updateTimer := by simpa using hcb
    have h1 := hown p hp hcb2
    rw [hnone h] at h1
    exact Option.noConfusion h1

/-- C16 amended, at the initial controller state. -/
theorem updateTimer_idle_witness :
    GameController.initial.updateTimer.model =
      { GameController.initial.model with
        timer := if GameController.initial.model.timer > 0
          then GameController.initial.model.timer - 1
          else GameController.initial.model.timer } ∧
    GameController.initial.liveTicks Callback.updateTimer = [] :=
  ⟨(updateTimer_idle GameController.initial (by decide)).1,
    (updateTimer_idle GameController.initial (by decide)).2.2
      GameController.Scheduled.initial⟩

/-- C17 as stated fails: `addMole` does not look at `maxMoles`. On a
12-hole board with moles in holes 0, 1 and 2, where
`activeMoleCount = 3 = count(holes where hasMole)`, `addMole(3)` returns
true and gives `activeMoleCount = 4`. -/
theorem addMole_exceeds_maxMoles :
    (((GameModel.constructor.initHoles.addMole 0).2.addMole 1).2.addMole
      2).2.activeMoleCount = 3 ∧
    (((GameModel.constructor.initHoles.addMole 0).2.addMole 1).2.addMole 2).2.moleCount = 3 ∧
    (((GameModel.constructor.initHoles.addMole 0).2.addMole 1).2.addMole 2).2.maxMoles = 3 ∧
    ((((GameModel.constructor.initHoles.addMole 0).2.addMole 1).2.addMole 2).2.addMole 3).1
      = true ∧
    ((((GameModel.constructor.initHoles.addMole 0).2.addMole 1).2.addMole 2).2.addMole
      3).2.activeMoleCount = 4 := by
  decide

/-- C17, amended. From a model state with `activeMoleCount ≤ 3`, the states
after `removeMole(id)` and after `initHoles` have `activeMoleCount ≤ 3`, for
every integer id; the state after `addMole(id)` has `activeMoleCount ≤ 3`
when `canAddMole()` was true before the call (with `maxMoles = 3`), which is
the check `generateMole` makes before it calls `addMole`. -/
theorem mutators_keep_bound (m : GameModel) (holeId : Int)
    (h : m.activeMoleCount ≤ 3) :
    (m.removeMole holeId).2.activeMoleCount ≤ 3 ∧
    m.initHoles.activeMoleCount ≤ 3 ∧
    (m.maxMoles = 3 → m.canAddMole = true →
      (m.addMole holeId).2.activeMoleCount ≤ 3) := by
  refine ⟨?_, ?_, ?_⟩
  · have := (removeMole_count_frame m holeId).2
    omega
  · show (0 : Int) ≤ 3
    decide
  · intro hmax hcan
    have hlt : m.activeMoleCount < 3 := by
      simpa [GameModel.canAddMole, hmax] using hcan
    have := (addMole_count_frame m holeId).2
    omega

/-- C17 amended, at the board with moles in holes 0 and 1 and the id 2. -/
theorem mutators_keep_bound_witness :
    (((GameModel.constructor.initHoles.addMole 0).2.addMole 1).2.removeMole
      2).2.activeMoleCount ≤ 3 ∧
    (((GameModel.constructor.initHoles.addMole 0).2.addMole 1).2.addMole
      2).2.activeMoleCount ≤ 3 :=
  ⟨(mutators_keep_bound ((GameModel.constructor.initHoles.addMole 0).2.addMole 1).2 2
      (by decide)).1,
    (mutators_keep_bound ((GameModel.constructor.initHoles.addMole 0).2.addMole 1).2 2
      (by decide)).2.2 (by decide) (by decide)⟩

/-- C18. `initHoles` replaces `holes` by 12 entries, the entry at index `i`
being `{ id: i, hasMole: false }`, sets `activeMoleCount` to 0 and leaves
`score`, `timer`, `isGameActive` and `maxMoles` as they were. `addMole` and
`removeMole` with any integer id keep the number of holes and the id of each
hole, so after any sequence of them on the new board the ids are still
0, 1, …, 11 in this order: one hole per id in `[0, 12)`. -/
theorem initHoles_spec (m : GameModel) :
    m.initHoles.holes =
      (List.range 12).map (fun (i : Nat) => ({ id := (i : Int), hasMole := false } : Hole)) ∧
    m.initHoles.holes.length = 12 ∧
    (∀ i : Nat, i < 12 →
      m.initHoles.holes[i]? = some { id := (i : Int), hasMole := false }) ∧
    m.initHoles.activeMoleCount = 0 ∧
    m.initHoles.score = m.score ∧
    m.initHoles.timer = m.timer ∧
    m.initHoles.isGameActive = m.isGameActive ∧
    m.initHoles.maxMoles = m.maxMoles ∧
    (∀ (n : GameModel) (holeId : Int),
      (n.addMole holeId).2.holes.map Hole.id = n.holes.map Hole.id ∧
      (n.addMole holeId).2.holes.length = n.holes.length ∧
      (n.removeMole holeId).2.holes.map Hole.id = n.holes.map Hole.id ∧
      (n.removeMole holeId).2.holes.length = n.holes.length) ∧
    (∀ ops : List GameModel.MoleOp,
      (m.initHoles.applyMoleOps ops).holes.map Hole.id
        = [0, 1, 2, 3, 4, 5, 6, 7, 8, 9, 10, 11]) := by
  have hholes : m.initHoles.holes =
      (List.range 12).map (fun (i : Nat) => ({ id := (i : Int), hasMole := false } : Hole)) := by
    show (List.range 12).foldl GameModel.pushHole [] = _
    decide
  refine ⟨hholes, ?_, ?_, rfl, rfl, rfl, rfl, rfl, ?_, ?_⟩
  · rw [hholes]
    simp
  · intro i hi
    rw [hholes, List.getElem?_map, List.getElem?_range hi]
    rfl
  · intro n holeId
    have ha := addMole_ids n holeId
    have hr := removeMole_ids n holeId
    refine ⟨ha, ?_, hr, ?_⟩
    · have := congrArg List.length ha
      simpa using this
    · have := congrArg List.length hr
      simpa using this
  · intro ops
    rw [applyMoleOps_ids, hholes]
    decide

/-- C19. In every state reachable by the controller's events, `score ≥ 0`;
from such a state `handleStartClick` gives `score = 0`, `generateMole` (any
draw) and `updateTimer` leave `score` as it was, and `handleHoleClick` (any
integer id) leaves it as it was or makes it exactly one more. -/
theorem score_steps (c : GameController) (h : GameController.Reachable c) :
    0 ≤ c.model.score ∧
    c.handleStartClick.model.score = 0 ∧
    (∀ r : Draw, (c.generateMole r).model.score = c.model.score) ∧
    c.updateTimer.model.score = c.model.score ∧
    (∀ holeId : Int,
      (c.handleHoleClick holeId).model.score = c.model.score ∨
      (c.handleHoleClick holeId).model.score = c.model.score + 1) := by
  refine ⟨?_, by rw [handleStartClick_model], fun r => (generateMole_frame c r).1,
    updateTimer_score c, fun holeId => (handleHoleClick_frame c holeId).1⟩
  induction h with
  | initial => decide
  | step c e _ ih =>
    cases e with
    | handleStartClick =>
      show 0 ≤ c.handleStartClick.model.score
      rw [handleStartClick_model]
    | generateMole r =>
      show 0 ≤ (c.generateMole r).model.score
      rw [(generateMole_frame c r).1]
      exact ih
    | updateTimer =>
      show 0 ≤ c.updateTimer.model.score
      rw [updateTimer_score]
      exact ih
    | handleHoleClick holeId =>
      show 0 ≤ (c.handleHoleClick holeId).model.score
      rcases (handleHoleClick_frame c holeId).1 with hs | hs
      · rw [hs]
        exact ih
      · rw [hs]
        omega

/-- C19, at a state: the controller after a start click, a spawn tick with
draw 0 and a click on hole 0. -/
theorem score_steps_witness :
    GameController.Reachable
      (GameController.initial.run
        [GameController.Event.handleStartClick, GameController.Event.generateMole Draw.zero,
          GameController.Event.handleHoleClick 0]) ∧
    0 ≤ (GameController.initial.run
        [GameController.Event.handleStartClick, GameController.Event.generateMole Draw.zero,
          GameController.Event.handleHoleClick 0]).model.score :=
  ⟨reachable_run _ _ GameController.Reachable.initial,
    (score_steps _ (reachable_run _ _ GameController.Reachable.initial)).1⟩

/-- C20. In every state reachable from the controller's initial state by a
finite sequence of events, `isGameActive = true` implies `timer ≥ 1`; so
`isGameActive` and `isGameOver()` are never both true. -/
theorem active_timer_positive (c : GameController) (h : GameController.Reachable c) :
    (c.model.isGameActive = true → 1 ≤ c.model.timer) ∧
    ¬ (c.model.isGameActive = true ∧ c.model.isGameOver = true) := by
  have key : c.model.isGameActive = true → 1 ≤ c.model.timer := by
    induction h with
    | initial =>
      intro hact
      exact absurd hact (by decide)
    | step c e _ ih =>
      cases e with
      | handleStartClick =>
        show c.handleStartClick.model.isGameActive = true → 1 ≤ c.handleStartClick.model.timer
        rw [handleStartClick_model]
        intro _
        show (1 : Int) ≤ 30
        decide
      | generateMole r =>
        show (c.generateMole r).model.isGameActive = true → 1 ≤ (c.generateMole r).model.timer
        obtain ⟨_, f2, f3⟩ := generateMole_frame c r
        rw [f2, f3]
        exact ih
      | updateTimer =>
        show c.updateTimer.model.isGameActive = true → 1 ≤ c.updateTimer.model.timer
        obtain ⟨_, _, f3⟩ := updateTimer_frame c
        intro hact
        rw [f3] at hact
        by_cases hle : c.updateTimer.model.timer ≤ 0
        · rw [if_pos hle] at hact
          exact Bool.noConfusion hact
        · omega
      | handleHoleClick holeId =>
        show (c.handleHoleClick holeId).model.isGameActive = true →
          1 ≤ (c.handleHoleClick holeId).model.timer
        obtain ⟨_, f2, f3⟩ := handleHoleClick_frame c holeId
        rw [f2, f3]
        exact ih
  refine ⟨key, ?_⟩
  rintro ⟨hact, hover⟩
  have h1 := key hact
  have h2 : c.model.timer ≤ 0 := by
    simpa [GameModel.isGameOver] using hover
  omega

/-- C20, at a state: the controller after a start click and two timer
ticks. -/
theorem active_timer_positive_witness :
    GameController.Reachable
      (GameController.initial.run
        [GameController.Event.handleStartClick, GameController.Event.updateTimer,
          GameController.Event.updateTimer]) ∧
    ((GameController.initial.run
        [GameController.Event.handleStartClick, GameController.Event.updateTimer,
          GameController.Event.updateTimer]).model.isGameActive = true →
      1 ≤ (GameController.initial.run
        [GameController.Event.handleStartClick, GameController.Event.updateTimer,
          GameController.Event.updateTimer]).model.timer) :=
  ⟨reachable_run _ _ GameController.Reachable.initial,
    (active_timer_positive _ (reachable_run _ _ GameController.Reachable.initial)).1⟩

end WhacAMole
